import Mathlib

/-!
Verification of the knowledge-graph query core of `ark-agent-cli`.

The repository ships two interchangeable backing stores behind the same
query surface:
* a relational backend (`src/db/queries.ts`, Drizzle/PostgreSQL), embedded
  here as total functions over a `DbStore` (a list of node rows and edge
  rows, each tagged with its `knowledgeGraphId`), and
* a parquet backend (`src/parquet-tools/queries.ts`, DuckDB over per-graph
  parquet files), embedded as `Except`-valued functions over a `PqFiles`
  map from graph id to the rows of the graph; building a SQL source for an
  unknown graph id throws `Unknown graph id=...` in the source, modelled
  by the `PqError.unknownGraph` constructor.

The agent-facing tool layer (`makeSearchInSurroundingsTool`, identical in
`src/tools.ts` and `src/parquet-tools/tools.ts`) is embedded on top of the
parquet queries.

JavaScript semantics that matter and are modelled explicitly:
* truthiness tests on optional strings (`""` counts as absent),
* `String.prototype.replace` with a string pattern replaces only the
  first occurrence,
* `String.prototype.split(" ")` splits on single space characters and
  keeps empty fragments,
* `new Set(...)` iterates in insertion order,
* `new Map(pairs)` keeps the last value for a duplicated key,
* `Array.prototype.sort` is stable (ES2019).
-/

/-! ## Character-list string primitives (JS `toLowerCase`, `includes`, `split`) -/

/-- Lower-cased character list of a string (JS `s.toLowerCase()`; the data
here is ASCII, where `Char.toLower` and JS agree). -/
def lowerL (s : String) : List Char :=
  s.data.map Char.toLower

/-- Lower-cased string. -/
def strLower (s : String) : String :=
  String.mk (lowerL s)

/-- Whether the first list is a prefix of the second (Bool-valued,
structurally recursive so that concrete instances evaluate). -/
def leadsWith : List Char → List Char → Bool
  | [], _ => true
  | _ :: _, [] => false
  | a :: as, b :: bs => a == b && leadsWith as bs

/-- Whether `needle` occurs contiguously inside the second list
(JS `String.prototype.includes` on the underlying characters). -/
def occursIn (needle : List Char) : List Char → Bool
  | [] => needle.isEmpty
  | c :: rest => leadsWith needle (c :: rest) || occursIn needle rest

/-- JS `h.toLowerCase().includes(n.toLowerCase())`. -/
def lowerIncludes (h : String) (n : String) : Bool :=
  occursIn (lowerL n) (lowerL h)

/-- JS `h.toLowerCase().includes(n)` — the needle is used as supplied
(the tokenizer has already lower-cased it). -/
def lowerIncludesRaw (h : String) (n : String) : Bool :=
  occursIn n.data (lowerL h)

/-- JS `s.split(sep)` for a single-character separator: splits at every
occurrence and keeps empty fragments (`"a  b".split(" ") = ["a","","b"]`). -/
def splitOnChar (sep : Char) : List Char → List (List Char)
  | [] => [[]]
  | c :: rest =>
    let r := splitOnChar sep rest
    if c = sep then [] :: r
    else
      match r with
      | t :: ts => (c :: t) :: ts
      | [] => [[c]]

/-- JS `s.replace("-", " ")` on characters: only the FIRST hyphen is
replaced, because `String.prototype.replace` with a string pattern
substitutes a single occurrence. -/
def replaceFirstDash : List Char → List Char
  | [] => []
  | c :: cs => if c = '-' then ' ' :: cs else c :: replaceFirstDash cs

/-- JS truthiness of an optional string: `null`/`undefined` and `""` are
falsy. -/
def truthyOpt : Option String → Bool
  | none => false
  | some s => !(s == "")

/-! ## Data model (`src/parquet-tools/types.ts` / `src/db/schema.ts`) -/

/-- A node row. `knowledgeGraphId` is the graph partition tag (injected by
the parquet source, a column in the relational schema). The TS fields
`from`/`to` of edges are renamed `fromId`/`toId` because `from` is a Lean
keyword. -/
structure Node where
  knowledgeGraphId : Nat
  id : String
  name : Option String
  type : Option String
  properties : Option String
deriving DecidableEq

/-- An edge row; directed `fromId → toId`, but neighbor queries treat it
as undirected. -/
structure Edge where
  knowledgeGraphId : Nat
  fromId : String
  toId : String
  type : Option String
  properties : Option String
deriving DecidableEq

/-- One leg of a two-leg path (`queries.ts` `Path` type). The edge type in
a built leg is always a non-empty string: null/empty types are dropped by
the truthiness check in `findPaths`. -/
structure PathLeg where
  tailNode : Node
  edgeType : String
  headNode : Node
deriving DecidableEq

/-- A path: a list of legs (always exactly two as produced by
`findPaths`). -/
structure KgPath where
  legs : List PathLeg
deriving DecidableEq

/-- Hop count for neighbor expansion; the TS signatures restrict it to the
literal type `1 | 2`. -/
inductive Hops where
  | one
  | two
deriving DecidableEq

/-! ## Shared pure helpers -/

/-- Insertion into a JS `Set` materialised as a list: append if absent,
preserving insertion order. -/
def insertNew {α : Type} [DecidableEq α] (acc : List α) (x : α) : List α :=
  if x ∈ acc then acc else acc ++ [x]

/-- JS `[...new Set(l)]`: first-occurrence-order deduplication. -/
def dedupJs {α : Type} [DecidableEq α] (l : List α) : List α :=
  l.foldl insertNew []

/-- The inner accumulation of the `k = 2` branch of `getKHopNeighborIds`:
walk the concatenated 1-hop neighbor lists of every member of `n1` and add
each id that is neither the reference node nor already 1-hop, collapsing
duplicates (the TS `Set<string>`). `nss` is the list of per-member
neighbor lists, in `n1` order. -/
def collectTwoHop (nodeId : String) (n1 : List String) (nss : List (List String)) : List String :=
  nss.flatten.foldl
    (fun acc x => if x ≠ nodeId ∧ x ∉ n1 then insertNew acc x else acc) []

/-- Whether an edge touches a node id in either direction
(`e."from" = id OR e."to" = id`). -/
def edgeTouches (nodeId : String) (e : Edge) : Prop :=
  e.fromId = nodeId ∨ e.toId = nodeId

instance (nodeId : String) (e : Edge) : Decidable (edgeTouches nodeId e) := by
  unfold edgeTouches; infer_instance

/-- The optional edge-type filter. The TS guard is truthiness
(`edgeType ? eq(edge.type, edgeType) : undefined`), so an empty string
disables the filter. -/
def edgeTypeOk (et : Option String) (e : Edge) : Prop :=
  match et with
  | none => True
  | some t => t = "" ∨ e.type = some t

instance (et : Option String) (e : Edge) : Decidable (edgeTypeOk et e) := by
  unfold edgeTypeOk; cases et <;> infer_instance

/-- The neighbor id contributed by an edge incident to `nodeId`
(`CASE WHEN e."from" = id THEN e."to" ELSE e."from" END`). -/
def neighborEnd (nodeId : String) (e : Edge) : String :=
  if e.fromId = nodeId then e.toId else e.fromId

/-! ## Relational backend (`src/db/queries.ts`) -/

/-- The relational store: the `node` and `edge` tables, in row order. -/
structure DbStore where
  nodes : List Node
  edges : List Edge

/-- Embedding of `getNeighbors` (db): distinct `(from, to)` pairs of edges in the
authorized graphs touching `nodeId` (and passing the optional type
filter), mapped to the far endpoint and deduplicated through a JS `Set`. -/
def dbGetNeighbors (st : DbStore) (g : List Nat) (nodeId : String) (et : Option String) :
    List String :=
  let rows := st.edges.filter
    (fun e => decide (e.knowledgeGraphId ∈ g ∧ edgeTouches nodeId e ∧ edgeTypeOk et e))
  let pairs := dedupJs (rows.map (fun e => (e.fromId, e.toId)))
  dedupJs (pairs.map (fun p => if p.1 = nodeId then p.2 else p.1))

/-- Embedding of `getKHopNeighborIds` (db). For `k = 2` a truthy edge-type filter
short-circuits to the empty list ("not supported in this implementation to
match Python version behavior"); otherwise the unfiltered 1-hop set `N1`
is extended with the deduplicated 2-hop-only ids. -/
def dbGetKHopNeighborIds (st : DbStore) (g : List Nat) (nodeId : String) (k : Hops)
    (et : Option String) : List String :=
  match k with
  | .one => dbGetNeighbors st g nodeId et
  | .two =>
    if truthyOpt et then []
    else
      let n1 := dbGetNeighbors st g nodeId none
      n1 ++ collectTwoHop nodeId n1 (n1.map (fun m => dbGetNeighbors st g m none))

/-- Embedding of `getNodesByIds` (db): empty requested-id list short-circuits; otherwise
rows whose graph id is authorized and whose id is requested. -/
def dbGetNodesByIds (st : DbStore) (g : List Nat) (nodeIds : List String) : List Node :=
  if nodeIds.isEmpty then []
  else st.nodes.filter (fun n => decide (n.knowledgeGraphId ∈ g ∧ n.id ∈ nodeIds))

/-- Embedding of `getEdgesBetweenNodes` (db): all edges connecting the unordered pair in
either direction, within the authorized graphs. -/
def dbGetEdgesBetweenNodes (st : DbStore) (g : List Nat) (a b : String) : List Edge :=
  st.edges.filter (fun e => decide (e.knowledgeGraphId ∈ g ∧
    ((e.fromId = a ∧ e.toId = b) ∨ (e.fromId = b ∧ e.toId = a))))

/-- The ILIKE `%name%` condition of `searchNodesByName`: case-insensitive
substring of the (non-null) node name. -/
def nameMatchesIlike (pat : String) (n : Node) : Bool :=
  match n.name with
  | some nm => lowerIncludes nm pat
  | none => false

/-- Embedding of `searchNodesByName` (db). Both filters are truthiness-guarded in the
source: an empty `name` disables the name condition, and an absent OR
EMPTY graph-id list disables the graph filter
(`knowledgeGraphIds !== undefined && knowledgeGraphIds.length > 0`). -/
def dbSearchNodesByName (st : DbStore) (name : String) (g : Option (List Nat))
    (limit : Nat) : List Node :=
  (st.nodes.filter (fun n =>
    (if name = "" then true else nameMatchesIlike name n) &&
    (match g with
     | some l => if l.isEmpty then true else decide (n.knowledgeGraphId ∈ l)
     | none => true))).take limit

/-! ## `findPaths` core (shared shape of both backends) -/

/-- One row of the `source_neighbors`/`destination_neighbors` CTE: the far
endpoint of an incident edge together with the type of that edge. One row per
edge — a node reachable by several edge types appears several times. -/
def incidentRows (edges : List Edge) (x : String) : List (String × Option String) :=
  (edges.filter (fun e => decide (edgeTouches x e))).map
    (fun e => (neighborEnd x e, e.type))

/-- A row of the inner join: the shared intermediate id with the source-side
and destination-side edge types. -/
structure IxTuple where
  mid : String
  sType : Option String
  dType : Option String
deriving DecidableEq

/-- The `INNER JOIN ... ON s."neighborId" = d."neighborId"`, enumerated
source-major. -/
def joinTuples (srows drows : List (String × Option String)) : List IxTuple :=
  srows.flatMap (fun s =>
    (drows.filter (fun d => d.1 == s.1)).map (fun d => ⟨s.1, s.2, d.2⟩))

/-- JS `new Map(nodes.map(n => [n.id, n])).get(id)`: the LAST row with the id
wins when a duplicate id occurs (e.g. the same id in two unioned graphs). -/
def mapGetNode (fetched : List Node) (id : String) : Option Node :=
  (fetched.filter (fun n => n.id == id)).getLast?

/-- Build one two-leg path from a join row (`intermediateNodesInfo.map`
body): resolve the intermediate node in the fetched map and require both
edge types truthy, otherwise produce `null` (filtered out). -/
def buildPath (fetched : List Node) (sn dn : Node) (t : IxTuple) : Option KgPath :=
  match mapGetNode fetched t.mid, t.sType, t.dType with
  | some mn, some t1, some t2 =>
    if t1 = "" ∨ t2 = "" then none
    else some ⟨[⟨sn, t1, mn⟩, ⟨mn, t2, dn⟩]⟩
  | _, _, _ => none

/-- Resolve the two endpoint nodes in the fetched map (empty result when
either is missing) and build one path per join row. -/
def resolveAndBuild (fetched : List Node) (a b : String) (tuples : List IxTuple) :
    List KgPath :=
  match mapGetNode fetched a, mapGetNode fetched b with
  | some sn, some dn => tuples.filterMap (buildPath fetched sn dn)
  | _, _ => []

/-- The pure body of `findPaths`, over the edge and node rows visible to
the query (both backends restrict those rows to the authorized graphs):
join the incident-edge rows of the two endpoints on the neighbor id, stop
early when the join is empty, batch-fetch the node records of the two
endpoints and the distinct intermediates, give up with `[]` when either
endpoint node is missing, and build one two-leg path per join row whose
intermediate resolves and whose two edge types are truthy. -/
def findPathsCore (edges : List Edge) (nodes : List Node) (a b : String) : List KgPath :=
  let tuples := joinTuples (incidentRows edges a) (incidentRows edges b)
  if tuples.isEmpty then []
  else
    let fetched := nodes.filter
      (fun n => decide (n.id ∈ dedupJs (a :: b :: tuples.map (·.mid))))
    resolveAndBuild fetched a b tuples

/-- Embedding of `findPaths` (db): every SQL step filters `knowledgeGraphId ∈ g`, so the
computation is `findPathsCore` over the graph-filtered tables. -/
def dbFindPaths (st : DbStore) (g : List Nat) (a b : String) : List KgPath :=
  findPathsCore (st.edges.filter (fun e => decide (e.knowledgeGraphId ∈ g)))
    (st.nodes.filter (fun n => decide (n.knowledgeGraphId ∈ g))) a b

/-! ## Parquet backend (`src/parquet-tools/queries.ts`) -/

/-- A node row as stored in `nodes.parquet` (no graph tag; the source SQL
injects `knowledgeGraphId`). -/
structure RawNode where
  id : String
  name : Option String
  type : Option String
  properties : Option String
deriving DecidableEq

/-- An edge row as stored in `edges.parquet`. -/
structure RawEdge where
  fromId : String
  toId : String
  type : Option String
  properties : Option String
deriving DecidableEq

/-- The two parquet files of one graph. -/
structure PqGraph where
  nodes : List RawNode
  edges : List RawEdge
deriving DecidableEq

/-- The `files : Map<number, GraphFiles>` of `createQueries`, with each
per-graph rows in file order. -/
abbrev PqFiles := List (Nat × PqGraph)

/-- Failures of the parquet query layer. `unknownGraph i` is the
`Unknown graph id=${i}` error thrown while building a source SQL
expression; `malformedEmptySource` stands for the DuckDB parse failure on
the `()` source produced when the graph-id list is empty. -/
inductive PqError where
  | unknownGraph (id : Nat)
  | malformedEmptySource
deriving DecidableEq

/-- Sequence a per-graph row extraction over the graph-id list, stopping at
the first unknown id — the `knowledgeGraphIds.map(...)` inside
`nodesSource`/`edgesSource`, whose callback throws on a missing file
entry. -/
def collectChunks {ι α : Type} (f : ι → Except PqError (List α)) :
    List ι → Except PqError (List (List α))
  | [] => .ok []
  | i :: rest =>
    match f i with
    | .error e => .error e
    | .ok c =>
      match collectChunks f rest with
      | .error e => .error e
      | .ok cs => .ok (c :: cs)

/-- Build a tagged node row from a raw parquet row under graph id `i`
(the `SELECT ${id} AS "knowledgeGraphId", *` projection). -/
def mkNodeRow (i : Nat) (r : RawNode) : Node :=
  ⟨i, r.id, r.name, r.type, r.properties⟩

/-- Build a tagged edge row from a raw parquet row under graph id `i`. -/
def mkEdgeRow (i : Nat) (r : RawEdge) : Edge :=
  ⟨i, r.fromId, r.toId, r.type, r.properties⟩

/-- The node rows contributed by one graph id, or the `Unknown graph id`
failure. -/
def pqNodeChunk (files : PqFiles) (i : Nat) : Except PqError (List Node) :=
  match files.lookup i with
  | some f => .ok (f.nodes.map (mkNodeRow i))
  | none => .error (.unknownGraph i)

/-- The edge rows contributed by one graph id. -/
def pqEdgeChunk (files : PqFiles) (i : Nat) : Except PqError (List Edge) :=
  match files.lookup i with
  | some f => .ok (f.edges.map (mkEdgeRow i))
  | none => .error (.unknownGraph i)

/-- Row semantics of `nodesSource(g)`: the union of the node files of the
authorized graphs, each row tagged with its graph id. An unknown id fails with
`unknownGraph`; an empty id list yields the malformed `()` SQL source. -/
def pqNodesRows (files : PqFiles) (g : List Nat) : Except PqError (List Node) :=
  if g.isEmpty then .error .malformedEmptySource
  else
    match collectChunks (pqNodeChunk files) g with
    | .error e => .error e
    | .ok chunks => .ok chunks.flatten

/-- Row semantics of `edgesSource(g)`. -/
def pqEdgesRows (files : PqFiles) (g : List Nat) : Except PqError (List Edge) :=
  if g.isEmpty then .error .malformedEmptySource
  else
    match collectChunks (pqEdgeChunk files) g with
    | .error e => .error e
    | .ok chunks => .ok chunks.flatten

/-- Embedding of `searchNodesByName` (parquet): an omitted graph-id list defaults to
every known graph, an empty one short-circuits to `[]` before any source is
built, otherwise rows whose name matches `ILIKE %name%`, capped at
`limit`. -/
def pqSearchNodesByName (files : PqFiles) (name : String) (g : Option (List Nat))
    (limit : Nat) : Except PqError (List Node) :=
  let kgIds := match g with
    | some l => l
    | none => files.map (·.1)
  if kgIds.isEmpty then .ok []
  else
    match pqNodesRows files kgIds with
    | .error e => .error e
    | .ok rows => .ok ((rows.filter (nameMatchesIlike name)).take limit)

/-- Embedding of `getNodesByIds` (parquet): an empty requested-id list returns before
the source is built (so even unknown graph ids pass); otherwise rows of
the union with a requested id. -/
def pqGetNodesByIds (files : PqFiles) (g : List Nat) (nodeIds : List String) :
    Except PqError (List Node) :=
  if nodeIds.isEmpty then .ok []
  else
    match pqNodesRows files g with
    | .error e => .error e
    | .ok rows => .ok (rows.filter (fun n => decide (n.id ∈ nodeIds)))

/-- Embedding of `getEdgesBetweenNodes` (parquet). -/
def pqGetEdgesBetweenNodes (files : PqFiles) (g : List Nat) (a b : String) :
    Except PqError (List Edge) :=
  match pqEdgesRows files g with
  | .error e => .error e
  | .ok rows => .ok (rows.filter (fun e => decide ((e.fromId = a ∧ e.toId = b) ∨
      (e.fromId = b ∧ e.toId = a))))

/-- Embedding of `getNeighbors` (parquet): `SELECT DISTINCT CASE ... END` over the
incident edges of the union, with the truthiness-guarded type filter. -/
def pqGetNeighbors (files : PqFiles) (g : List Nat) (nodeId : String) (et : Option String) :
    Except PqError (List String) :=
  match pqEdgesRows files g with
  | .error e => .error e
  | .ok rows => .ok (dedupJs ((rows.filter
      (fun e => decide (edgeTouches nodeId e ∧ edgeTypeOk et e))).map (neighborEnd nodeId)))

/-- Embedding of `getKHopNeighborIds` (parquet): identical logic to the relational
version — for `k = 2` a truthy edge-type filter returns `.ok []` before
any store access ("edge type filtering not supported (matches DB
version)"). -/
def pqGetKHopNeighborIds (files : PqFiles) (g : List Nat) (nodeId : String) (k : Hops)
    (et : Option String) : Except PqError (List String) :=
  match k with
  | .one => pqGetNeighbors files g nodeId et
  | .two =>
    if truthyOpt et then .ok []
    else
      match pqGetNeighbors files g nodeId none with
      | .error e => .error e
      | .ok n1 =>
        match collectChunks (fun m => pqGetNeighbors files g m none) n1 with
        | .error e => .error e
        | .ok nss => .ok (n1 ++ collectTwoHop nodeId n1 nss)

/-- Embedding of `findPaths` (parquet): both sources are built up front (either can
throw `unknownGraph`), then the pure join/build runs on the union rows. -/
def pqFindPaths (files : PqFiles) (g : List Nat) (a b : String) :
    Except PqError (List KgPath) :=
  match pqEdgesRows files g with
  | .error e => .error e
  | .ok edges =>
    match pqNodesRows files g with
    | .error e => .error e
    | .ok nodes => .ok (findPathsCore edges nodes a b)

/-! ## Tool layer (`makeSearchInSurroundingsTool`) -/

/-- The fixed stop-word list of `makeSearchInSurroundingsTool`. -/
def STOPWORDS : List String :=
  ["the", "a", "an", "and", "or", "but", "in", "on", "at", "to", "for", "of",
   "with", "by", "is", "are", "was", "were", "be", "been", "have", "has",
   "had", "do", "does", "did", "will", "would", "could", "should", "may",
   "might", "can", "must", "shall", "this", "that", "these", "those", "i",
   "you", "he", "she", "it", "we", "they", "me", "him", "her", "us", "them"]

/-- The query tokenizer:
`query.replace("-", " ").split(" ").map(w => w.toLowerCase()).filter(w => !STOPWORDS.includes(w))`.
Only the first hyphen is replaced and the split is on single space
characters (both JS semantics). -/
def tokenizeQuery (q : String) : List String :=
  (((splitOnChar ' ' (replaceFirstDash q.data)).map String.mk).map strLower).filter
    (fun w => !(STOPWORDS.contains w))

/-- The name-match condition:
`c.name?.toLowerCase().includes(query.toLowerCase())` — a null name never
matches. -/
def candNameMatch (q : String) (c : Node) : Bool :=
  match c.name with
  | some nm => lowerIncludes nm q
  | none => false

/-- Whether one (already lower-cased) query token occurs in the
properties text of the candidate:
`c.properties?.toLowerCase().includes(qw)`. -/
def candPropHasWord (c : Node) (w : String) : Bool :=
  match c.properties with
  | some p => lowerIncludesRaw p w
  | none => false

/-- A property-match candidate enriched with its relevance data
(the `{...c, relevance, appearingWords}` object). -/
structure Scored where
  node : Node
  relevance : Nat
  appearing : List String
deriving DecidableEq

/-- Insertion step of the stable descending relevance sort: the new
element goes in front of the first existing element whose relevance does
not exceed it, so every element it jumps over has strictly greater
relevance. -/
def insertRelDesc (x : Scored) : List Scored → List Scored
  | [] => [x]
  | y :: ys => if y.relevance ≤ x.relevance then x :: y :: ys else y :: insertRelDesc x ys

/-- Stable sort by descending relevance. ES2019 guarantees
`Array.prototype.sort` is stable, and a stable sort under the comparator
`(a, b) => b.relevance - a.relevance` has exactly one possible output:
descending relevance with ties in original order, which is what this
right-to-left insertion sort produces. -/
def sortByRelDesc : List Scored → List Scored
  | [] => []
  | x :: xs => insertRelDesc x (sortByRelDesc xs)

/-- The `candidatesInName` filter: candidates whose name contains the whole query,
case-insensitively, in fetch order. -/
def nameMatchList (q : String) (cands : List Node) : List Node :=
  cands.filter (candNameMatch q)

/-- The `candidatesInProperties` list before sorting: candidates that are not name
matches (by id), have a truthy `properties` string, scored by the number
of query tokens appearing in the properties, keeping only positive
relevance. -/
def scoredPropMatches (qws : List String) (inName : List Node) (cands : List Node) :
    List Scored :=
  ((cands.filter (fun c =>
      !(inName.any (fun cin => cin.id == c.id)) && truthyOpt c.properties)).map
    (fun c =>
      let aw := qws.filter (candPropHasWord c)
      ⟨c, aw.length, aw⟩)).filter (fun sc => decide (0 < sc.relevance))

/-- The `matchExplanation` string:
`` `${r} match${r === 1 ? "" : "es"}: ${words.join(", ")}` ``. -/
def matchExplanationOf (r : Nat) (ws : List String) : String :=
  toString r ++ " match" ++ (if r = 1 then "" else "es") ++ ": " ++ String.intercalate ", " ws

/-- The ranked candidate list built when a (truthy) query is present: all
name matches in fetch order (no explanation), then the property matches
stably sorted by descending relevance, each with its explanation. -/
def rankCandidates (q : String) (cands : List Node) : List (Node × Option String) :=
  let inName := nameMatchList q cands
  let sorted := sortByRelDesc (scoredPropMatches (tokenizeQuery q) inName cands)
  inName.map (fun c => (c, none)) ++
    sorted.map (fun sc => (sc.node, some (matchExplanationOf sc.relevance sc.appearing)))

/-- A neighbor record of the `searchInSurroundings` response. The three
optional fields mirror the optional members of the TS
`SearchSurroundingsNeighbor` type; `none` models an absent member. -/
structure NeighborOut where
  type : Option String
  name : Option String
  id : String
  knowledgeGraphId : Nat
  properties : Option String
  edgesToCandidate : Option (List (Option String))
  edgesFromCandidate : Option (List (Option String))
  matchExplanation : Option String
deriving DecidableEq

/-- The `searchInSurroundings` response. -/
structure SurroundingsResponse where
  mainNode : Node
  neighbors : List NeighborOut
deriving DecidableEq

/-- Failures thrown by the `execute` function of the tool. -/
inductive ToolError where
  | edgeTypeWithTwoHops
  | nodeNotFound (id : String)
  | store (e : PqError)
deriving DecidableEq

/-- The `nodeType` filter: `candidates.filter(c => c.type === nodeType)`,
applied only when `nodeType` is truthy. -/
def applyNodeTypeFilter (nodeType : Option String) (cands : List Node) : List Node :=
  match nodeType with
  | some nt => if nt = "" then cands else cands.filter (fun c => c.type == some nt)
  | none => cands

/-- The hops-1 enrichment of one ranked candidate: fetch the edges between
the reference node and the candidate and split their types by direction. -/
def attachEdges (files : PqFiles) (g : List Nat) (nodeId : String)
    (cand : Node × Option String) : Except PqError NeighborOut :=
  match pqGetEdgesBetweenNodes files g nodeId cand.1.id with
  | .error e => .error e
  | .ok edges =>
    .ok ⟨cand.1.type, cand.1.name, cand.1.id, cand.1.knowledgeGraphId, cand.1.properties,
      some ((edges.filter (fun e => e.fromId == nodeId)).map (·.type)),
      some ((edges.filter (fun e => e.toId == nodeId)).map (·.type)),
      cand.2⟩

/-- The body of `execute` past the k=2/edge-type guard: resolve the main
node (`NodeNotFound` when absent), expand neighbors, fetch and filter the
candidate records, rank them when a query is present, and shape the
response per hop count (hops 1 attaches per-candidate edge lists; hops 2
returns bare node fields only). -/
def searchCore (files : PqFiles) (g : List Nat) (nodeId : String)
    (query nodeType edgeType : Option String) (hops : Hops) :
    Except ToolError SurroundingsResponse :=
  match pqGetNodesByIds files g [nodeId] with
  | .error e => .error (.store e)
  | .ok [] => .error (.nodeNotFound nodeId)
  | .ok (mainNode :: _) =>
    match pqGetKHopNeighborIds files g nodeId hops edgeType with
    | .error e => .error (.store e)
    | .ok neighborIds =>
      match pqGetNodesByIds files g neighborIds with
      | .error e => .error (.store e)
      | .ok fetched =>
        let cands := applyNodeTypeFilter nodeType fetched
        let ranked := if truthyOpt query then rankCandidates (query.getD "") cands
          else cands.map (fun c => (c, none))
        match hops with
        | .one =>
          match collectChunks (fun cand =>
              match attachEdges files g nodeId cand with
              | .error e => .error e
              | .ok nb => .ok [nb]) ranked with
          | .error e => .error (.store e)
          | .ok neighbors => .ok ⟨mainNode, neighbors.flatten⟩
        | .two =>
          .ok ⟨mainNode, ranked.map (fun cand =>
            ⟨cand.1.type, cand.1.name, cand.1.id, cand.1.knowledgeGraphId, cand.1.properties,
             none, none, none⟩)⟩

/-- Embedding of the `execute` function of `makeSearchInSurroundingsTool` (the parquet and relational
copies are line-for-line identical at this layer). `k` is the parsed hop
count (`"1" | "2"`, defaulting to 1), so the `k must be 1 or 2` guard is
unreachable and not modelled; a truthy edge-type filter combined with two
hops is rejected before anything else runs. -/
def searchInSurroundings (files : PqFiles) (g : List Nat) (nodeId : String)
    (query nodeType edgeType : Option String) (k : Option Hops) :
    Except ToolError SurroundingsResponse :=
  if k.getD .one = .two ∧ truthyOpt edgeType then .error .edgeTypeWithTwoHops
  else searchCore files g nodeId query nodeType edgeType (k.getD .one)

/-- The hops-1 enrichment of one ranked candidate in the relational copy
of the tool (`src/tools.ts`): the db `getEdgesBetweenNodes` is total in
the pure embedding, so the enriched record is built directly. -/
def dbAttachEdges (st : DbStore) (g : List Nat) (nodeId : String)
    (cand : Node × Option String) : NeighborOut :=
  let edges := dbGetEdgesBetweenNodes st g nodeId cand.1.id
  ⟨cand.1.type, cand.1.name, cand.1.id, cand.1.knowledgeGraphId, cand.1.properties,
    some ((edges.filter (fun e => e.fromId == nodeId)).map (·.type)),
    some ((edges.filter (fun e => e.toId == nodeId)).map (·.type)),
    cand.2⟩

/-- The body of the relational `execute` past the k=2/edge-type guard —
the same pipeline as `searchCore` over the db queries (the two tool
copies are line-for-line identical; only the query layer differs, and the
relational queries cannot raise store errors in the pure embedding). -/
def dbSearchCore (st : DbStore) (g : List Nat) (nodeId : String)
    (query nodeType edgeType : Option String) (hops : Hops) :
    Except ToolError SurroundingsResponse :=
  match dbGetNodesByIds st g [nodeId] with
  | [] => .error (.nodeNotFound nodeId)
  | mainNode :: _ =>
    let neighborIds := dbGetKHopNeighborIds st g nodeId hops edgeType
    let fetched := dbGetNodesByIds st g neighborIds
    let cands := applyNodeTypeFilter nodeType fetched
    let ranked := if truthyOpt query then rankCandidates (query.getD "") cands
      else cands.map (fun c => (c, none))
    match hops with
    | .one => .ok ⟨mainNode, ranked.map (dbAttachEdges st g nodeId)⟩
    | .two =>
      .ok ⟨mainNode, ranked.map (fun cand =>
        ⟨cand.1.type, cand.1.name, cand.1.id, cand.1.knowledgeGraphId, cand.1.properties,
         none, none, none⟩)⟩

/-- Embedding of the `execute` function of the relational
`makeSearchInSurroundingsTool` (`src/tools.ts`): identical guard, then
the relational pipeline. -/
def dbSearchInSurroundings (st : DbStore) (g : List Nat) (nodeId : String)
    (query nodeType edgeType : Option String) (k : Option Hops) :
    Except ToolError SurroundingsResponse :=
  if k.getD .one = .two ∧ truthyOpt edgeType then .error .edgeTypeWithTwoHops
  else dbSearchCore st g nodeId query nodeType edgeType (k.getD .one)

/-! ## Concrete stores used by witnesses and counterexamples -/

/-- A small parquet store: one graph (id 1) with a chain `a — b — c — d`
and one self-loop on `s`. -/
def sampleGraph : PqGraph where
  nodes :=
    [⟨"a", some "Alpha", some "gene", some "alpha details"⟩,
     ⟨"b", some "Beta", some "disease", some "treats metformin response"⟩,
     ⟨"c", some "Gamma", some "gene", some "gamma metformin alpha"⟩,
     ⟨"d", some "Delta", some "drug", none⟩,
     ⟨"s", some "Sigma", some "gene", some "sigma"⟩]
  edges :=
    [⟨"a", "b", some "t1", none⟩,
     ⟨"b", "c", some "t2", none⟩,
     ⟨"c", "d", some "t3", none⟩,
     ⟨"s", "s", some "loop", none⟩]

/-- The parquet store holding only `sampleGraph` under graph id 1. -/
def sampleFiles : PqFiles := [(1, sampleGraph)]

/-- The same data as a relational store. -/
def sampleDb : DbStore where
  nodes :=
    [⟨1, "a", some "Alpha", some "gene", some "alpha details"⟩,
     ⟨1, "b", some "Beta", some "disease", some "treats metformin response"⟩,
     ⟨1, "c", some "Gamma", some "gene", some "gamma metformin alpha"⟩,
     ⟨1, "d", some "Delta", some "drug", none⟩,
     ⟨1, "s", some "Sigma", some "gene", some "sigma"⟩]
  edges :=
    [⟨1, "a", "b", some "t1", none⟩,
     ⟨1, "b", "c", some "t2", none⟩,
     ⟨1, "c", "d", some "t3", none⟩,
     ⟨1, "s", "s", some "loop", none⟩]

/-! ## List helper lemmas -/

theorem mem_insertNew {α : Type} [DecidableEq α] {acc : List α} {x a : α} :
    a ∈ insertNew acc x ↔ a ∈ acc ∨ a = x := by
  unfold insertNew
  split
  · rename_i hx
    constructor
    · exact Or.inl
    · rintro (h | rfl)
      · exact h
      · exact hx
  · simp

theorem nodup_insertNew {α : Type} [DecidableEq α] {acc : List α} (x : α)
    (h : acc.Nodup) : (insertNew acc x).Nodup := by
  unfold insertNew
  split
  · exact h
  · rename_i hx
    simpa [List.nodup_append] using ⟨h, fun hmem => hx hmem⟩

theorem mem_foldl_insertNew {α : Type} [DecidableEq α] (l : List α) :
    ∀ (acc : List α) (a : α), a ∈ l.foldl insertNew acc ↔ a ∈ acc ∨ a ∈ l := by
  induction l with
  | nil => simp
  | cons x xs ih =>
    intro acc a
    simp only [List.foldl_cons, ih, mem_insertNew, List.mem_cons]
    tauto

theorem nodup_foldl_insertNew {α : Type} [DecidableEq α] (l : List α) :
    ∀ (acc : List α), acc.Nodup → (l.foldl insertNew acc).Nodup := by
  induction l with
  | nil => simp
  | cons x xs ih =>
    intro acc hacc
    exact ih _ (nodup_insertNew x hacc)

theorem mem_dedupJs {α : Type} [DecidableEq α] {l : List α} {a : α} :
    a ∈ dedupJs l ↔ a ∈ l := by
  unfold dedupJs
  simp [mem_foldl_insertNew]

theorem nodup_dedupJs {α : Type} [DecidableEq α] (l : List α) : (dedupJs l).Nodup :=
  nodup_foldl_insertNew l [] List.nodup_nil

theorem mem_twoHopFold (nodeId : String) (n1 : List String) (l : List String) :
    ∀ (acc : List String) (a : String),
      a ∈ l.foldl (fun acc x => if x ≠ nodeId ∧ x ∉ n1 then insertNew acc x else acc) acc ↔
        a ∈ acc ∨ (a ∈ l ∧ a ≠ nodeId ∧ a ∉ n1) := by
  induction l with
  | nil => simp
  | cons x xs ih =>
    intro acc a
    simp only [List.foldl_cons, ih]
    by_cases hx : x ≠ nodeId ∧ x ∉ n1
    · rw [if_pos hx]
      simp only [mem_insertNew, List.mem_cons]
      constructor
      · rintro ((h | rfl) | h)
        · exact Or.inl h
        · exact Or.inr ⟨Or.inl rfl, hx⟩
        · exact Or.inr ⟨Or.inr h.1, h.2⟩
      · rintro (h | ⟨(rfl | h), hgood⟩)
        · exact Or.inl (Or.inl h)
        · exact Or.inl (Or.inr rfl)
        · exact Or.inr ⟨h, hgood⟩
    · rw [if_neg hx]
      simp only [List.mem_cons]
      constructor
      · rintro (h | h)
        · exact Or.inl h
        · exact Or.inr ⟨Or.inr h.1, h.2⟩
      · rintro (h | ⟨(rfl | h), hgood⟩)
        · exact Or.inl h
        · exact absurd hgood hx
        · exact Or.inr ⟨h, hgood⟩

theorem nodup_twoHopFold (nodeId : String) (n1 : List String) (l : List String) :
    ∀ (acc : List String), acc.Nodup →
      (l.foldl (fun acc x => if x ≠ nodeId ∧ x ∉ n1 then insertNew acc x else acc) acc).Nodup := by
  induction l with
  | nil => simp
  | cons x xs ih =>
    intro acc hacc
    simp only [List.foldl_cons]
    apply ih
    split
    · exact nodup_insertNew x hacc
    · exact hacc

theorem mem_collectTwoHop {nodeId : String} {n1 : List String} {nss : List (List String)}
    {a : String} :
    a ∈ collectTwoHop nodeId n1 nss ↔ a ∈ nss.flatten ∧ a ≠ nodeId ∧ a ∉ n1 := by
  unfold collectTwoHop
  simp [mem_twoHopFold]

theorem nodup_collectTwoHop (nodeId : String) (n1 : List String) (nss : List (List String)) :
    (collectTwoHop nodeId n1 nss).Nodup :=
  nodup_twoHopFold nodeId n1 nss.flatten [] List.nodup_nil

/-! ## Stable-sort lemmas -/

theorem mem_insertRelDesc {x a : Scored} : ∀ {l : List Scored},
    a ∈ insertRelDesc x l ↔ a = x ∨ a ∈ l := by
  intro l
  induction l with
  | nil => simp [insertRelDesc]
  | cons y ys ih =>
    unfold insertRelDesc
    split
    · simp
    · simp only [List.mem_cons, ih]
      tauto

theorem pairwise_insertRelDesc {x : Scored} : ∀ {l : List Scored},
    List.Pairwise (fun u v => v.relevance ≤ u.relevance) l →
      List.Pairwise (fun u v => v.relevance ≤ u.relevance) (insertRelDesc x l) := by
  intro l
  induction l with
  | nil => simp [insertRelDesc]
  | cons y ys ih =>
    intro hp
    rw [List.pairwise_cons] at hp
    unfold insertRelDesc
    split
    · rename_i hle
      rw [List.pairwise_cons]
      refine ⟨?_, List.pairwise_cons.mpr hp⟩
      intro z hz
      rcases List.mem_cons.mp hz with rfl | hz
      · exact hle
      · exact le_trans (hp.1 z hz) hle
    · rename_i hgt
      rw [List.pairwise_cons]
      refine ⟨?_, ih hp.2⟩
      intro z hz
      rcases mem_insertRelDesc.mp hz with rfl | hz
      · omega
      · exact hp.1 z hz

theorem pairwise_sortByRelDesc : ∀ (l : List Scored),
    List.Pairwise (fun u v => v.relevance ≤ u.relevance) (sortByRelDesc l) := by
  intro l
  induction l with
  | nil => simp [sortByRelDesc]
  | cons x xs ih => exact pairwise_insertRelDesc ih

theorem mem_sortByRelDesc {a : Scored} : ∀ {l : List Scored},
    a ∈ sortByRelDesc l ↔ a ∈ l := by
  intro l
  induction l with
  | nil => simp [sortByRelDesc]
  | cons x xs ih =>
    unfold sortByRelDesc
    rw [mem_insertRelDesc, ih, List.mem_cons]

theorem filter_insertRelDesc (x : Scored) (r : Nat) : ∀ (l : List Scored),
    (insertRelDesc x l).filter (fun sc => sc.relevance == r) =
      (x :: l).filter (fun sc => sc.relevance == r) := by
  intro l
  induction l with
  | nil => simp [insertRelDesc]
  | cons y ys ih =>
    unfold insertRelDesc
    split
    · rfl
    · rename_i hgt
      push_neg at hgt
      by_cases hy : y.relevance = r
      · have hx : ¬ x.relevance = r := by omega
        simp only [List.filter_cons, hy, hx, beq_iff_eq, if_pos, if_neg, beq_self_eq_true]
        simp only [ih, List.filter_cons, beq_iff_eq, hx, if_neg]
        simp [hy]
      · have hyb : (y.relevance == r) = false := by simp [hy]
        simp [List.filter_cons, hyb, ih]

theorem filter_sortByRelDesc (r : Nat) : ∀ (l : List Scored),
    (sortByRelDesc l).filter (fun sc => sc.relevance == r) =
      l.filter (fun sc => sc.relevance == r) := by
  intro l
  induction l with
  | nil => rfl
  | cons x xs ih =>
    unfold sortByRelDesc
    rw [filter_insertRelDesc]
    simp only [List.filter_cons]
    split
    · rw [ih]
    · rw [ih]

/-! ## Tokenizer lemmas -/

theorem toLower_eq_space_iff (c : Char) : c.toLower = ' ' ↔ c = ' ' := by
  constructor
  · intro h
    unfold Char.toLower at h
    simp only at h
    split at h
    · rename_i hin
      exfalso
      have hval : (c.toNat + 32).isValidChar := Or.inl (by omega)
      have h32 : (Char.ofNat (c.toNat + 32)).toNat = c.toNat + 32 := by
        rw [Char.ofNat, dif_pos hval]
        simp [Char.ofNatAux, Char.toNat, UInt32.toNat, BitVec.toNat_ofNatLt]
      rw [h] at h32
      have hsp : (' ' : Char).toNat = 32 := by decide
      rw [hsp] at h32
      omega
    · exact h
  · intro h
    subst h
    rfl

theorem splitOnChar_map_toLower : ∀ (cs : List Char),
    splitOnChar ' ' (cs.map Char.toLower) =
      (splitOnChar ' ' cs).map (fun t => t.map Char.toLower) := by
  intro cs
  induction cs with
  | nil => rfl
  | cons c rest ih =>
    simp only [List.map_cons, splitOnChar, ih]
    by_cases hc : c = ' '
    · rw [if_pos ((toLower_eq_space_iff c).mpr hc), if_pos hc]
      rfl
    · rw [if_neg (fun h => hc ((toLower_eq_space_iff c).mp h)), if_neg hc]
      cases hsc : splitOnChar ' ' rest with
      | nil => rfl
      | cons t ts => rfl

/-! ## Parquet source lemmas -/

/-- The first graph id of `g` with no entry in the files map — the id whose
source construction throws. -/
def firstUnknown (files : PqFiles) (g : List Nat) : Option Nat :=
  g.find? (fun i => (files.lookup i).isNone)

theorem collectChunks_isOk {ι α : Type} {f : ι → Except PqError (List α)} :
    ∀ {g : List ι}, (∀ i ∈ g, ∃ l, f i = .ok l) →
      ∃ cs, collectChunks f g = .ok cs := by
  intro g
  induction g with
  | nil => exact fun _ => ⟨[], rfl⟩
  | cons j rest ih =>
    intro hall
    obtain ⟨l, hl⟩ := hall j (by simp)
    obtain ⟨cs, hcs⟩ := ih (fun i hi => hall i (by simp [hi]))
    exact ⟨l :: cs, by simp [collectChunks, hl, hcs]⟩

theorem collectChunks_ok_mem {ι α : Type} {f : ι → Except PqError (List α)} :
    ∀ {g : List ι} {cs : List (List α)}, collectChunks f g = .ok cs →
      ∀ x, x ∈ cs.flatten ↔ ∃ i ∈ g, ∃ l, f i = .ok l ∧ x ∈ l := by
  intro g
  induction g with
  | nil =>
    intro cs hok x
    simp only [collectChunks, Except.ok.injEq] at hok
    subst hok
    simp
  | cons j rest ih =>
    intro cs hok x
    simp only [collectChunks] at hok
    cases hj : f j with
    | error e => rw [hj] at hok; cases hok
    | ok l =>
      rw [hj] at hok
      cases hrest : collectChunks f rest with
      | error e => rw [hrest] at hok; cases hok
      | ok cs' =>
        rw [hrest] at hok
        simp only [Except.ok.injEq] at hok
        subst hok
        simp only [List.flatten_cons, List.mem_append, ih hrest, List.mem_cons]
        constructor
        · rintro (h | ⟨i, hi, l', hl', hx⟩)
          · exact ⟨j, Or.inl rfl, l, hj, h⟩
          · exact ⟨i, Or.inr hi, l', hl', hx⟩
        · rintro ⟨i, (rfl | hi), l', hl', hx⟩
          · rw [hj] at hl'
            cases hl'
            exact Or.inl hx
          · exact Or.inr ⟨i, hi, l', hl', hx⟩

theorem collectChunks_error_of_find? {ι α : Type} {f : ι → Except PqError (List α)}
    {p : ι → Bool} {err : ι → PqError}
    (herr : ∀ j, p j = true → f j = .error (err j))
    (hok : ∀ j, p j = false → ∃ l, f j = .ok l) :
    ∀ {g : List ι} {i : ι}, g.find? p = some i →
      collectChunks f g = .error (err i) := by
  intro g
  induction g with
  | nil => intro i hfind; simp at hfind
  | cons j rest ih =>
    intro i hfind
    cases hp : p j with
    | true =>
      rw [List.find?_cons_of_pos _ hp] at hfind
      cases hfind
      simp [collectChunks, herr j hp]
    | false =>
      rw [List.find?_cons_of_neg _ (by simp [hp])] at hfind
      obtain ⟨l, hl⟩ := hok j hp
      simp [collectChunks, hl, ih hfind]

theorem pqNodeChunk_ok_of_lookup {files : PqFiles} {i : Nat} {fg : PqGraph}
    (h : files.lookup i = some fg) :
    pqNodeChunk files i = .ok (fg.nodes.map (mkNodeRow i)) := by
  simp [pqNodeChunk, h]

theorem pqEdgeChunk_ok_of_lookup {files : PqFiles} {i : Nat} {fg : PqGraph}
    (h : files.lookup i = some fg) :
    pqEdgeChunk files i = .ok (fg.edges.map (mkEdgeRow i)) := by
  simp [pqEdgeChunk, h]

theorem pqNodesRows_error {files : PqFiles} {g : List Nat} {i : Nat}
    (hfind : firstUnknown files g = some i) :
    pqNodesRows files g = .error (.unknownGraph i) := by
  have hne : g.isEmpty = false := by
    cases g with
    | nil => simp [firstUnknown] at hfind
    | cons j rest => rfl
  have hcc : collectChunks (pqNodeChunk files) g = .error (.unknownGraph i) := by
    refine @collectChunks_error_of_find? _ _ _ _ (fun j => PqError.unknownGraph j) ?_ ?_ _ _ hfind
    · intro j hj
      rw [Option.isNone_iff_eq_none] at hj
      simp [pqNodeChunk, hj]
    · intro j hj
      cases hlk : files.lookup j with
      | none => rw [hlk] at hj; simp at hj
      | some fg => exact ⟨_, pqNodeChunk_ok_of_lookup hlk⟩
  simp [pqNodesRows, hne, hcc]

theorem pqEdgesRows_error {files : PqFiles} {g : List Nat} {i : Nat}
    (hfind : firstUnknown files g = some i) :
    pqEdgesRows files g = .error (.unknownGraph i) := by
  have hne : g.isEmpty = false := by
    cases g with
    | nil => simp [firstUnknown] at hfind
    | cons j rest => rfl
  have hcc : collectChunks (pqEdgeChunk files) g = .error (.unknownGraph i) := by
    refine @collectChunks_error_of_find? _ _ _ _ (fun j => PqError.unknownGraph j) ?_ ?_ _ _ hfind
    · intro j hj
      rw [Option.isNone_iff_eq_none] at hj
      simp [pqEdgeChunk, hj]
    · intro j hj
      cases hlk : files.lookup j with
      | none => rw [hlk] at hj; simp at hj
      | some fg => exact ⟨_, pqEdgeChunk_ok_of_lookup hlk⟩
  simp [pqEdgesRows, hne, hcc]

theorem pqNodesRows_mem {files : PqFiles} {g : List Nat} {rows : List Node}
    (hok : pqNodesRows files g = .ok rows) (n : Node) :
    n ∈ rows ↔ ∃ i ∈ g, ∃ fg, files.lookup i = some fg ∧ ∃ r ∈ fg.nodes, n = mkNodeRow i r := by
  rw [pqNodesRows] at hok
  by_cases hg : g.isEmpty
  · rw [if_pos hg] at hok; cases hok
  · rw [if_neg hg] at hok
    cases hcs : collectChunks (pqNodeChunk files) g with
    | error e => rw [hcs] at hok; cases hok
    | ok cs =>
      rw [hcs] at hok
      simp only [Except.ok.injEq] at hok
      subst hok
      rw [collectChunks_ok_mem hcs n]
      constructor
      · rintro ⟨i, hi, l, hl, hx⟩
        cases hlk : files.lookup i with
        | none => rw [pqNodeChunk, hlk] at hl; cases hl
        | some fg =>
          rw [pqNodeChunk_ok_of_lookup hlk] at hl
          cases hl
          obtain ⟨r, hr, rfl⟩ := List.mem_map.mp hx
          exact ⟨i, hi, fg, hlk, r, hr, rfl⟩
      · rintro ⟨i, hi, fg, hlk, r, hr, rfl⟩
        exact ⟨i, hi, fg.nodes.map (mkNodeRow i), pqNodeChunk_ok_of_lookup hlk,
          List.mem_map_of_mem _ hr⟩

theorem pqEdgesRows_mem {files : PqFiles} {g : List Nat} {rows : List Edge}
    (hok : pqEdgesRows files g = .ok rows) (e : Edge) :
    e ∈ rows ↔ ∃ i ∈ g, ∃ fg, files.lookup i = some fg ∧ ∃ r ∈ fg.edges, e = mkEdgeRow i r := by
  rw [pqEdgesRows] at hok
  by_cases hg : g.isEmpty
  · rw [if_pos hg] at hok; cases hok
  · rw [if_neg hg] at hok
    cases hcs : collectChunks (pqEdgeChunk files) g with
    | error e' => rw [hcs] at hok; cases hok
    | ok cs =>
      rw [hcs] at hok
      simp only [Except.ok.injEq] at hok
      subst hok
      rw [collectChunks_ok_mem hcs e]
      constructor
      · rintro ⟨i, hi, l, hl, hx⟩
        cases hlk : files.lookup i with
        | none => rw [pqEdgeChunk, hlk] at hl; cases hl
        | some fg =>
          rw [pqEdgeChunk_ok_of_lookup hlk] at hl
          cases hl
          obtain ⟨r, hr, rfl⟩ := List.mem_map.mp hx
          exact ⟨i, hi, fg, hlk, r, hr, rfl⟩
      · rintro ⟨i, hi, fg, hlk, r, hr, rfl⟩
        exact ⟨i, hi, fg.edges.map (mkEdgeRow i), pqEdgeChunk_ok_of_lookup hlk,
          List.mem_map_of_mem _ hr⟩

theorem pqNodesRows_isOk {files : PqFiles} {g : List Nat} (hne : g ≠ [])
    (hall : ∀ i ∈ g, (files.lookup i).isSome) :
    ∃ rows, pqNodesRows files g = .ok rows := by
  have hg : g.isEmpty = false := by
    cases g with
    | nil => exact absurd rfl hne
    | cons j rest => rfl
  obtain ⟨cs, hcs⟩ := @collectChunks_isOk _ _ (pqNodeChunk files) g (by
    intro i hi
    cases hlk : files.lookup i with
    | none => exact absurd (hall i hi) (by simp [hlk])
    | some fg => exact ⟨_, pqNodeChunk_ok_of_lookup hlk⟩)
  exact ⟨cs.flatten, by simp [pqNodesRows, hg, hcs]⟩

theorem pqEdgesRows_isOk {files : PqFiles} {g : List Nat} (hne : g ≠ [])
    (hall : ∀ i ∈ g, (files.lookup i).isSome) :
    ∃ rows, pqEdgesRows files g = .ok rows := by
  have hg : g.isEmpty = false := by
    cases g with
    | nil => exact absurd rfl hne
    | cons j rest => rfl
  obtain ⟨cs, hcs⟩ := @collectChunks_isOk _ _ (pqEdgeChunk files) g (by
    intro i hi
    cases hlk : files.lookup i with
    | none => exact absurd (hall i hi) (by simp [hlk])
    | some fg => exact ⟨_, pqEdgeChunk_ok_of_lookup hlk⟩)
  exact ⟨cs.flatten, by simp [pqEdgesRows, hg, hcs]⟩

/-! ## `findPathsCore` lemmas -/

theorem mapGetNode_eq_none {l : List Node} {a : String} (h : ∀ n ∈ l, n.id ≠ a) :
    mapGetNode l a = none := by
  unfold mapGetNode
  rw [List.filter_eq_nil_iff.mpr (by
    intro n hn
    simpa using h n hn)]
  rfl

theorem mapGetNode_mem {l : List Node} {a : String} {n : Node}
    (h : mapGetNode l a = some n) : n ∈ l ∧ n.id = a := by
  unfold mapGetNode at h
  have hmem := List.mem_of_getLast?_eq_some h
  rw [List.mem_filter] at hmem
  exact ⟨hmem.1, by simpa using hmem.2⟩

theorem buildPath_some {fetched : List Node} {sn dn : Node} {t : IxTuple} {p : KgPath}
    (h : buildPath fetched sn dn t = some p) :
    ∃ mn t1 t2, mapGetNode fetched t.mid = some mn ∧ t.sType = some t1 ∧ t.dType = some t2 ∧
      ¬(t1 = "" ∨ t2 = "") ∧ p = ⟨[⟨sn, t1, mn⟩, ⟨mn, t2, dn⟩]⟩ := by
  unfold buildPath at h
  split at h
  · rename_i mn t1 t2 hm hs hd
    split at h
    · cases h
    · rename_i hemp
      cases h
      exact ⟨mn, t1, t2, hm, hs, hd, hemp, rfl⟩
  · cases h

theorem findPathsCore_nil_of_missing {edges : List Edge} {nodes : List Node} {a b : String}
    (h : (∀ n ∈ nodes, n.id ≠ a) ∨ (∀ n ∈ nodes, n.id ≠ b)) :
    findPathsCore edges nodes a b = [] := by
  unfold findPathsCore
  by_cases htup : (joinTuples (incidentRows edges a) (incidentRows edges b)).isEmpty
  · simp [htup]
  · simp only [htup, Bool.false_eq_true, if_false, ite_false]
    unfold resolveAndBuild
    rcases h with h | h
    · rw [mapGetNode_eq_none (fun n hn => h n (List.mem_of_mem_filter hn))]
    · rw [mapGetNode_eq_none (fun n hn => h n (List.mem_of_mem_filter hn))]
      cases mapGetNode ((nodes.filter (fun n => decide (n.id ∈ dedupJs
        (a :: b :: (joinTuples (incidentRows edges a) (incidentRows edges b)).map (·.mid)))))) a
        <;> rfl

theorem findPathsCore_leg_nodes {edges : List Edge} {nodes : List Node} {a b : String}
    {p : KgPath} (hp : p ∈ findPathsCore edges nodes a b) :
    ∀ leg ∈ p.legs, leg.tailNode ∈ nodes ∧ leg.headNode ∈ nodes := by
  unfold findPathsCore at hp
  by_cases htup : (joinTuples (incidentRows edges a) (incidentRows edges b)).isEmpty
  · simp [htup] at hp
  · simp only [htup, Bool.false_eq_true, if_false, ite_false] at hp
    unfold resolveAndBuild at hp
    split at hp
    · rename_i sn dn hA hB
      obtain ⟨t, _, hbuild⟩ := List.mem_filterMap.mp hp
      obtain ⟨mn, t1, t2, hm, _, _, _, rfl⟩ := buildPath_some hbuild
      have hsn := List.mem_of_mem_filter (mapGetNode_mem hA).1
      have hdn := List.mem_of_mem_filter (mapGetNode_mem hB).1
      have hmn := List.mem_of_mem_filter (mapGetNode_mem hm).1
      intro leg hleg
      rcases List.mem_cons.mp hleg with rfl | hleg
      · exact ⟨hsn, hmn⟩
      · rcases List.mem_cons.mp hleg with rfl | hleg
        · exact ⟨hmn, hdn⟩
        · simp at hleg
    · simp at hp

/-! ## `findPaths` symmetry machinery -/

/-- Reverse one leg (exchange tail and head). -/
def swapLeg (l : PathLeg) : PathLeg :=
  ⟨l.headNode, l.edgeType, l.tailNode⟩

/-- The path obtained by reading a two-leg path from the other endpoint:
legs in reverse order, each leg flipped. -/
def swapKgPath (p : KgPath) : KgPath :=
  ⟨(p.legs.map swapLeg).reverse⟩

/-- Exchange the source-side and destination-side edge types of a join
row. -/
def swapT (t : IxTuple) : IxTuple :=
  ⟨t.mid, t.dType, t.sType⟩

theorem filter_map_as_flatMap {α β : Type} (l : List α) (p : α → Bool) (f : α → β) :
    (l.filter p).map f = l.flatMap (fun x => if p x then [f x] else []) := by
  induction l with
  | nil => rfl
  | cons y ys ih =>
    simp only [List.filter_cons, List.flatMap_cons]
    split
    · simp [ih]
    · simp [ih]

theorem joinTuples_swap (sr dr : List (String × Option String)) :
    (↑(joinTuples dr sr) : Multiset IxTuple) =
      Multiset.map swapT ↑(joinTuples sr dr) := by
  have hconv : ∀ (u v : List (String × Option String)),
      (↑(joinTuples u v) : Multiset IxTuple) =
        (↑u : Multiset (String × Option String)).bind (fun s =>
          (↑v : Multiset (String × Option String)).bind (fun d =>
            if d.1 == s.1 then {⟨s.1, s.2, d.2⟩} else 0)) := by
    intro u v
    unfold joinTuples
    rw [← Multiset.coe_bind]
    apply Multiset.bind_congr
    intro s _
    rw [filter_map_as_flatMap, ← Multiset.coe_bind]
    apply Multiset.bind_congr
    intro d _
    split <;> rfl
  rw [hconv, hconv]
  simp only [Multiset.map_bind]
  rw [Multiset.bind_bind]
  apply Multiset.bind_congr
  intro q _
  apply Multiset.bind_congr
  intro p _
  by_cases hpq : p.1 = q.1
  · simp [hpq, swapT]
  · have h1 : (p.1 == q.1) = false := by simp [hpq]
    have h2 : (q.1 == p.1) = false := by
      simp [show q.1 ≠ p.1 from fun hq => hpq hq.symm]
    simp [h1, h2]

theorem buildPath_swap (fetched : List Node) (sn dn : Node) (t : IxTuple) :
    buildPath fetched dn sn (swapT t) = Option.map swapKgPath (buildPath fetched sn dn t) := by
  cases hm : mapGetNode fetched t.mid with
  | none => cases hs : t.sType <;> cases hd : t.dType <;> simp [buildPath, swapT, hm, hs, hd]
  | some mn =>
    cases hs : t.sType with
    | none => cases hd : t.dType <;> simp [buildPath, swapT, hm, hs, hd]
    | some t1 =>
      cases hd : t.dType with
      | none => simp [buildPath, swapT, hm, hs, hd]
      | some t2 =>
        by_cases h1 : t1 = "" <;> by_cases h2 : t2 = "" <;>
          simp [buildPath, swapT, hm, hs, hd, h1, h2, swapKgPath, swapLeg]

theorem resolveAndBuild_swap {fetched : List Node} {a b : String} {tab tba : List IxTuple}
    (hms : (↑tba : Multiset IxTuple) = Multiset.map swapT ↑tab) :
    (↑(resolveAndBuild fetched b a tba) : Multiset KgPath) =
      Multiset.map swapKgPath ↑(resolveAndBuild fetched a b tab) := by
  unfold resolveAndBuild
  cases hA : mapGetNode fetched a with
  | none =>
    cases hB : mapGetNode fetched b with
    | none => simp
    | some dn => simp
  | some sn =>
    cases hB : mapGetNode fetched b with
    | none => simp
    | some dn =>
      have hcoe1 : (↑(tba.filterMap (buildPath fetched dn sn)) : Multiset KgPath) =
          Multiset.filterMap (buildPath fetched dn sn) ↑tba := rfl
      have hcoe2 : (↑(tab.filterMap (buildPath fetched sn dn)) : Multiset KgPath) =
          Multiset.filterMap (buildPath fetched sn dn) ↑tab := rfl
      rw [hcoe1, hcoe2, hms, Multiset.filterMap_map]
      rw [show ((buildPath fetched dn sn) ∘ swapT) =
        (fun t => Option.map swapKgPath (buildPath fetched sn dn t)) from
        funext (fun t => buildPath_swap fetched sn dn t)]
      rw [Multiset.map_filterMap]

theorem findPathsCore_swap (edges : List Edge) (nodes : List Node) (a b : String) :
    (↑(findPathsCore edges nodes b a) : Multiset KgPath) =
      Multiset.map swapKgPath ↑(findPathsCore edges nodes a b) := by
  have hms : (↑(joinTuples (incidentRows edges b) (incidentRows edges a)) : Multiset IxTuple) =
      Multiset.map swapT ↑(joinTuples (incidentRows edges a) (incidentRows edges b)) :=
    joinTuples_swap (incidentRows edges a) (incidentRows edges b)
  unfold findPathsCore
  by_cases hab : (joinTuples (incidentRows edges a) (incidentRows edges b)).isEmpty
  · have h1 : joinTuples (incidentRows edges a) (incidentRows edges b) = [] := by
      rwa [List.isEmpty_iff] at hab
    have h2 : joinTuples (incidentRows edges b) (incidentRows edges a) = [] := by
      have h := hms
      rw [h1] at h
      simpa using h
    simp [h1, h2]
  · have h1 : ¬(joinTuples (incidentRows edges b) (incidentRows edges a)).isEmpty = true := by
      intro hba
      apply hab
      rw [List.isEmpty_iff] at hba ⊢
      have h := hms
      rw [hba] at h
      have h0 : Multiset.map swapT (↑(joinTuples (incidentRows edges a) (incidentRows edges b)) :
          Multiset IxTuple) = 0 := by
        rw [← h]
        rfl
      rw [Multiset.map_eq_zero] at h0
      exact (Multiset.coe_eq_zero _).mp h0
    simp only [hab, h1, Bool.false_eq_true, if_false, ite_false]
    have hfe : (nodes.filter (fun n => decide (n.id ∈ dedupJs
        (b :: a :: (joinTuples (incidentRows edges b) (incidentRows edges a)).map (fun t : IxTuple => t.mid))))) =
        (nodes.filter (fun n => decide (n.id ∈ dedupJs
        (a :: b :: (joinTuples (incidentRows edges a) (incidentRows edges b)).map (fun t : IxTuple => t.mid))))) := by
      apply List.filter_congr
      intro n _
      apply decide_eq_decide.mpr
      rw [mem_dedupJs, mem_dedupJs]
      have hmids : ∀ x : String,
          x ∈ (joinTuples (incidentRows edges b) (incidentRows edges a)).map (fun t : IxTuple => t.mid) ↔
          x ∈ (joinTuples (incidentRows edges a) (incidentRows edges b)).map (fun t : IxTuple => t.mid) := by
        intro x
        have hmeq : (↑((joinTuples (incidentRows edges b) (incidentRows edges a)).map (fun t : IxTuple => t.mid)) :
            Multiset String) =
            ↑((joinTuples (incidentRows edges a) (incidentRows edges b)).map (fun t : IxTuple => t.mid)) := by
          calc (↑((joinTuples (incidentRows edges b) (incidentRows edges a)).map (fun t : IxTuple => t.mid)) :
              Multiset String)
              = Multiset.map (fun t : IxTuple => t.mid)
                  (↑(joinTuples (incidentRows edges b) (incidentRows edges a))) := rfl
            _ = Multiset.map (fun t : IxTuple => t.mid) (Multiset.map swapT
                  (↑(joinTuples (incidentRows edges a) (incidentRows edges b)))) := by rw [hms]
            _ = Multiset.map ((fun t : IxTuple => t.mid) ∘ swapT)
                  (↑(joinTuples (incidentRows edges a) (incidentRows edges b))) := by
                rw [Multiset.map_map]
            _ = Multiset.map (fun t : IxTuple => t.mid)
                  (↑(joinTuples (incidentRows edges a) (incidentRows edges b))) := rfl
            _ = ↑((joinTuples (incidentRows edges a) (incidentRows edges b)).map (fun t : IxTuple => t.mid)) := rfl
        rw [← Multiset.mem_coe, ← Multiset.mem_coe, hmeq]
      simp only [List.mem_cons, hmids]
      tauto
    rw [hfe]
    exact resolveAndBuild_swap hms

/-! ## Neighbor and containment helper lemmas -/

theorem neighborEnd_self {n : String} {e : Edge} :
    neighborEnd n e = n ↔ e.fromId = n ∧ e.toId = n := by
  unfold neighborEnd
  split
  · rename_i h
    exact ⟨fun ht => ⟨h, ht⟩, And.right⟩
  · rename_i h
    exact ⟨fun hf => absurd hf h, fun hft => absurd hft.1 h⟩

theorem self_mem_dbGetNeighbors (st : DbStore) (g : List Nat) (n : String) :
    n ∈ dbGetNeighbors st g n none ↔
      ∃ e ∈ st.edges, e.knowledgeGraphId ∈ g ∧ e.fromId = n ∧ e.toId = n := by
  unfold dbGetNeighbors
  rw [mem_dedupJs]
  constructor
  · intro h
    obtain ⟨p, hp, hfp⟩ := List.mem_map.mp h
    rw [mem_dedupJs] at hp
    obtain ⟨e, he, rfl⟩ := List.mem_map.mp hp
    rw [List.mem_filter, decide_eq_true_eq] at he
    refine ⟨e, he.1, he.2.1, ?_⟩
    by_cases hfrom : e.fromId = n
    · simp only [hfrom, if_pos] at hfp
      exact ⟨hfrom, hfp⟩
    · simp only [hfrom, if_neg, ite_false] at hfp
  · rintro ⟨e, he, hkg, hf, ht⟩
    apply List.mem_map.mpr
    refine ⟨(e.fromId, e.toId), ?_, by simp [hf, ht]⟩
    rw [mem_dedupJs]
    exact List.mem_map.mpr ⟨e, List.mem_filter.mpr
      ⟨he, by simp [edgeTouches, edgeTypeOk, hkg, hf, ht]⟩, rfl⟩

theorem self_mem_pqGetNeighbors {files : PqFiles} {g : List Nat} {n : String}
    {l : List String} (hok : pqGetNeighbors files g n none = .ok l) :
    n ∈ l ↔ ∃ i ∈ g, ∃ fg, files.lookup i = some fg ∧
      ∃ r ∈ fg.edges, r.fromId = n ∧ r.toId = n := by
  unfold pqGetNeighbors at hok
  cases hrows : pqEdgesRows files g with
  | error e => rw [hrows] at hok; cases hok
  | ok rows =>
    rw [hrows] at hok
    cases hok
    rw [mem_dedupJs]
    constructor
    · intro h
      obtain ⟨e, he, hend⟩ := List.mem_map.mp h
      rw [List.mem_filter, decide_eq_true_eq] at he
      obtain ⟨i, hi, fg, hfg, r, hr, rfl⟩ := (pqEdgesRows_mem hrows e).mp he.1
      obtain ⟨hf, ht⟩ := neighborEnd_self.mp hend
      exact ⟨i, hi, fg, hfg, r, hr, hf, ht⟩
    · rintro ⟨i, hi, fg, hfg, r, hr, hf, ht⟩
      apply List.mem_map.mpr
      refine ⟨mkEdgeRow i r, List.mem_filter.mpr ⟨?_, ?_⟩, ?_⟩
      · exact (pqEdgesRows_mem hrows _).mpr ⟨i, hi, fg, hfg, r, hr, rfl⟩
      · simp [edgeTouches, edgeTypeOk, mkEdgeRow, hf, ht]
      · exact neighborEnd_self.mpr ⟨hf, ht⟩

theorem pqNodesRows_kg {files : PqFiles} {g : List Nat} {rows : List Node}
    (hok : pqNodesRows files g = .ok rows) :
    ∀ n ∈ rows, n.knowledgeGraphId ∈ g := by
  intro n hn
  obtain ⟨i, hi, fg, _, r, _, rfl⟩ := (pqNodesRows_mem hok n).mp hn
  exact hi

theorem mem_scoredPropMatches {qws : List String} {inName : List Node} {cands : List Node}
    {sc : Scored} (h : sc ∈ scoredPropMatches qws inName cands) :
    sc.node ∈ cands ∧ 0 < sc.relevance ∧
      sc.relevance = (qws.filter (candPropHasWord sc.node)).length := by
  unfold scoredPropMatches at h
  rw [List.mem_filter, decide_eq_true_eq] at h
  obtain ⟨hmem, hpos⟩ := h
  obtain ⟨c, hc, rfl⟩ := List.mem_map.mp hmem
  exact ⟨List.mem_of_mem_filter hc, hpos, rfl⟩

theorem mem_rankCandidates_fst {q : String} {cands : List Node} {pr : Node × Option String}
    (h : pr ∈ rankCandidates q cands) : pr.1 ∈ cands := by
  unfold rankCandidates at h
  rcases List.mem_append.mp h with h | h
  · obtain ⟨c, hc, rfl⟩ := List.mem_map.mp h
    exact List.mem_of_mem_filter hc
  · obtain ⟨sc, hsc, rfl⟩ := List.mem_map.mp h
    rw [mem_sortByRelDesc] at hsc
    exact (mem_scoredPropMatches hsc).1

theorem mem_applyNodeTypeFilter {nodeType : Option String} {cands : List Node} {c : Node}
    (h : c ∈ applyNodeTypeFilter nodeType cands) : c ∈ cands := by
  cases nodeType with
  | none => exact h
  | some nt =>
    by_cases hnt : nt = ""
    · simpa [applyNodeTypeFilter, hnt] using h
    · simp only [applyNodeTypeFilter, hnt, if_neg, ite_false] at h
      exact List.mem_of_mem_filter h

theorem pqGetNodesByIds_kg {files : PqFiles} {g : List Nat} {ids : List String}
    {rows : List Node} (hok : pqGetNodesByIds files g ids = .ok rows) :
    ∀ n ∈ rows, n.knowledgeGraphId ∈ g := by
  unfold pqGetNodesByIds at hok
  by_cases hids : ids.isEmpty
  · rw [if_pos hids] at hok
    cases hok
    intro n hn
    simp at hn
  · rw [if_neg hids] at hok
    cases hrows : pqNodesRows files g with
    | error e => rw [hrows] at hok; cases hok
    | ok rows' =>
      rw [hrows] at hok
      cases hok
      intro n hn
      exact pqNodesRows_kg hrows n (List.mem_of_mem_filter hn)

theorem attachEdges_ok_fields {files : PqFiles} {g : List Nat} {nodeId : String}
    {cand : Node × Option String} {nb : NeighborOut}
    (h : attachEdges files g nodeId cand = .ok nb) :
    nb.knowledgeGraphId = cand.1.knowledgeGraphId ∧ nb.matchExplanation = cand.2 := by
  unfold attachEdges at h
  cases he : pqGetEdgesBetweenNodes files g nodeId cand.1.id with
  | error e => rw [he] at h; cases h
  | ok edges =>
    rw [he] at h
    cases h
    exact ⟨rfl, rfl⟩

/-! ## Claim-side tokenizer (C7) -/

/-- Split at every whitespace character (the phrase "splits it on
whitespace"); same fragment convention as `splitOnChar`. -/
def splitOnWs : List Char → List (List Char)
  | [] => [[]]
  | c :: rest =>
    let r := splitOnWs rest
    if c.isWhitespace then [] :: r
    else
      match r with
      | t :: ts => (c :: t) :: ts
      | [] => [[c]]

/-- Tokenization exactly as claim C7 words it: replace EVERY hyphen with a
space, lower-case the result, split on whitespace, drop stop-words. This
definition follows the wording of the claim, for comparison against
`tokenizeQuery` (which follows the source). -/
def c7ClaimTokenize (q : String) : List String :=
  ((splitOnWs (lowerL (String.mk (q.data.map (fun c => if c = '-' then ' ' else c))))).map
    String.mk).filter (fun w => !(STOPWORDS.contains w))

/-- Tokenization as amended: replace only the FIRST hyphen with a space,
lower-case the result, split on single space characters, drop stop-words. -/
def c7AmendedTokenize (q : String) : List String :=
  ((splitOnChar ' ' (lowerL (String.mk (replaceFirstDash q.data)))).map String.mk).filter
    (fun w => !(STOPWORDS.contains w))

/-! ## Claim theorems -/

/-- C7 counterexample: on the query `"x-y-z"` the source tokenizer
(`tokenizeQuery`, which replaces only the first hyphen) produces
`["x", "y-z"]`, while the tokenization the claim describes (every hyphen replaced)
produces `["x", "y", "z"]` — so the description the claim gives of the code is
false at this input. -/
theorem c7_counterexample :
    tokenizeQuery "x-y-z" = ["x", "y-z"] ∧ c7ClaimTokenize "x-y-z" = ["x", "y", "z"] ∧
      tokenizeQuery "x-y-z" ≠ c7ClaimTokenize "x-y-z" := by
  refine ⟨by decide, by decide, by decide⟩

/-- C7 (amended): the tokenizer replaces only the first hyphen with a
space, lower-cases the result, splits on single space characters, and
removes stop-word tokens — `tokenizeQuery` (source order: replace, split,
lower-case each token, drop stop-words) agrees with that description
(lower-casing commutes with splitting on spaces because no character
lower-cases to a space). -/
theorem c7_amended_tokenizer : ∀ q : String, tokenizeQuery q = c7AmendedTokenize q := by
  intro q
  unfold tokenizeQuery c7AmendedTokenize
  have hll : lowerL (String.mk (replaceFirstDash q.data)) =
      (replaceFirstDash q.data).map Char.toLower := rfl
  rw [hll, splitOnChar_map_toLower, List.map_map, List.map_map]
  rfl

/-- C1 counterexample: with a non-empty edge-type filter, the 2-hop
expansion `getKHopNeighborIds(g, n, 2, edgeType)` does NOT fail: it
returns successfully with the empty list (`.ok []`), contrary to the
claim that it always fails with `InvalidArgument`. -/
theorem c1_counterexample :
    pqGetKHopNeighborIds sampleFiles [1] "a" Hops.two (some "x") = Except.ok [] := rfl

/-- C1 (amended): for every store, graph set, node and non-empty edge
type, the query-layer 2-hop expansion returns the empty list without any
error (in both backends, before touching the store); the rejection the
spec describes happens one layer up — `searchInSurroundings` throws
`Filtering by edge type is not supported when k=2` before invoking the
expansion. -/
theorem c1_amended :
    ∀ (files : PqFiles) (st : DbStore) (g : List Nat) (n t : String), t ≠ "" →
      pqGetKHopNeighborIds files g n Hops.two (some t) = Except.ok [] ∧
      dbGetKHopNeighborIds st g n Hops.two (some t) = [] ∧
      (∀ query nodeType, searchInSurroundings files g n query nodeType (some t) (some Hops.two) =
        Except.error ToolError.edgeTypeWithTwoHops) := by
  intro files st g n t ht
  have htr : truthyOpt (some t) = true := by simp [truthyOpt, ht]
  refine ⟨?_, ?_, ?_⟩
  · simp [pqGetKHopNeighborIds, htr]
  · simp [dbGetKHopNeighborIds, htr]
  · intro query nodeType
    simp [searchInSurroundings, Option.getD, htr]

/-- C1 witness: the amended statement evaluated at the sample store. -/
theorem c1_amended_witness :
    pqGetKHopNeighborIds sampleFiles [1] "b" Hops.two (some "t9") = Except.ok [] ∧
    dbGetKHopNeighborIds sampleDb [1] "b" Hops.two (some "t9") = [] ∧
    searchInSurroundings sampleFiles [1] "b" none none (some "t9") (some Hops.two) =
      Except.error ToolError.edgeTypeWithTwoHops := by
  obtain ⟨h1, h2, h3⟩ := c1_amended sampleFiles sampleDb [1] "b" "t9" (by decide)
  exact ⟨h1, h2, h3 none none⟩

/-- C3: the 2-hop expansion (no edge-type filter) returns the 1-hop list
`N1` as a prefix, followed by a duplicate-free block `N2` of ids that are
neither the reference node nor 1-hop neighbors; every 1-hop id is in the
2-hop result (superset by id), and — in the relational backend — the
second block contains exactly the ids discovered from the own 1-hop set of some
1-hop member, minus the reference node and `N1`. Stated for both
backends (the parquet side under the successful-query hypotheses). -/
theorem c3_two_hop_structure :
    (∀ (st : DbStore) (g : List Nat) (nodeId : String),
      (dbGetKHopNeighborIds st g nodeId Hops.two none).take
          (dbGetNeighbors st g nodeId none).length = dbGetNeighbors st g nodeId none ∧
      (∀ x ∈ dbGetNeighbors st g nodeId none, x ∈ dbGetKHopNeighborIds st g nodeId Hops.two none) ∧
      ((dbGetKHopNeighborIds st g nodeId Hops.two none).drop
          (dbGetNeighbors st g nodeId none).length).Nodup ∧
      (∀ x ∈ (dbGetKHopNeighborIds st g nodeId Hops.two none).drop
          (dbGetNeighbors st g nodeId none).length,
        x ≠ nodeId ∧ x ∉ dbGetNeighbors st g nodeId none) ∧
      (∀ x, x ∈ (dbGetKHopNeighborIds st g nodeId Hops.two none).drop
          (dbGetNeighbors st g nodeId none).length ↔
        (∃ m ∈ dbGetNeighbors st g nodeId none, x ∈ dbGetNeighbors st g m none) ∧
          x ≠ nodeId ∧ x ∉ dbGetNeighbors st g nodeId none)) ∧
    (∀ (files : PqFiles) (g : List Nat) (nodeId : String) (n1 k2 : List String),
      pqGetNeighbors files g nodeId none = .ok n1 →
      pqGetKHopNeighborIds files g nodeId Hops.two none = .ok k2 →
      k2.take n1.length = n1 ∧
      (∀ x ∈ n1, x ∈ k2) ∧
      (k2.drop n1.length).Nodup ∧
      (∀ x ∈ k2.drop n1.length, x ≠ nodeId ∧ x ∉ n1)) := by
  constructor
  · intro st g nodeId
    have hk2 : dbGetKHopNeighborIds st g nodeId Hops.two none =
        dbGetNeighbors st g nodeId none ++
          collectTwoHop nodeId (dbGetNeighbors st g nodeId none)
            ((dbGetNeighbors st g nodeId none).map (fun m => dbGetNeighbors st g m none)) := by
      simp [dbGetKHopNeighborIds, truthyOpt]
    rw [hk2]
    refine ⟨List.take_left _ _, fun x hx => List.mem_append_left _ hx, ?_, ?_, ?_⟩
    · rw [List.drop_left]
      exact nodup_collectTwoHop _ _ _
    · rw [List.drop_left]
      intro x hx
      exact (mem_collectTwoHop.mp hx).2
    · intro x
      rw [List.drop_left, mem_collectTwoHop]
      constructor
      · rintro ⟨hfl, hne, hnm⟩
        obtain ⟨l, hl, hx⟩ := List.mem_flatten.mp hfl
        obtain ⟨m, hm, rfl⟩ := List.mem_map.mp hl
        exact ⟨⟨m, hm, hx⟩, hne, hnm⟩
      · rintro ⟨⟨m, hm, hx⟩, hne, hnm⟩
        exact ⟨List.mem_flatten.mpr ⟨_, List.mem_map_of_mem _ hm, hx⟩, hne, hnm⟩
  · intro files g nodeId n1 k2 hn1 hk2
    rw [pqGetKHopNeighborIds] at hk2
    simp only [truthyOpt, Bool.false_eq_true, if_false, ite_false] at hk2
    split at hk2
    · cases hk2
    · rename_i n1' hgn
      split at hk2
      · cases hk2
      · rename_i nss hnss
        cases hk2
        rw [hn1] at hgn
        injection hgn with hgn
        subst hgn
        refine ⟨List.take_left _ _, fun x hx => List.mem_append_left _ hx, ?_, ?_⟩
        · rw [List.drop_left]
          exact nodup_collectTwoHop _ _ _
        · rw [List.drop_left]
          intro x hx
          exact (mem_collectTwoHop.mp hx).2

/-- C3 witness: the parquet half applied to the sample store around node
`a` — `N1 = ["b"]`, 2-hop result `["b", "c"]`. -/
theorem c3_witness :
    (["b", "c"] : List String).take (["b"] : List String).length = ["b"] ∧
    (∀ x ∈ (["b"] : List String), x ∈ (["b", "c"] : List String)) ∧
    ((["b", "c"] : List String).drop (["b"] : List String).length).Nodup ∧
    (∀ x ∈ (["b", "c"] : List String).drop (["b"] : List String).length,
      x ≠ "a" ∧ x ∉ (["b"] : List String)) :=
  c3_two_hop_structure.2 sampleFiles [1] "a" ["b"] ["b", "c"] rfl rfl

/-- C4: when either endpoint has no node record in the authorized graphs,
`findPaths` returns the empty list — and (parquet backend, all graph ids
recognized) returns it successfully rather than failing. The relational
half holds for every graph-id set. -/
theorem c4_missing_endpoint :
    (∀ (st : DbStore) (g : List Nat) (a b : String),
      ((∀ nd ∈ st.nodes, nd.knowledgeGraphId ∈ g → nd.id ≠ a) ∨
       (∀ nd ∈ st.nodes, nd.knowledgeGraphId ∈ g → nd.id ≠ b)) →
      dbFindPaths st g a b = []) ∧
    (∀ (files : PqFiles) (g : List Nat) (a b : String),
      g ≠ [] → (∀ i ∈ g, (files.lookup i).isSome) →
      ((∀ i ∈ g, ∀ fg, files.lookup i = some fg → ∀ r ∈ fg.nodes, r.id ≠ a) ∨
       (∀ i ∈ g, ∀ fg, files.lookup i = some fg → ∀ r ∈ fg.nodes, r.id ≠ b)) →
      pqFindPaths files g a b = .ok []) := by
  constructor
  · intro st g a b h
    unfold dbFindPaths
    apply findPathsCore_nil_of_missing
    rcases h with h | h
    · left
      intro n hn
      rw [List.mem_filter, decide_eq_true_eq] at hn
      exact h n hn.1 hn.2
    · right
      intro n hn
      rw [List.mem_filter, decide_eq_true_eq] at hn
      exact h n hn.1 hn.2
  · intro files g a b hne hall h
    obtain ⟨eRows, heR⟩ := pqEdgesRows_isOk hne hall
    obtain ⟨nRows, hnR⟩ := pqNodesRows_isOk hne hall
    unfold pqFindPaths
    rw [heR, hnR]
    have hmiss : (∀ n ∈ nRows, n.id ≠ a) ∨ (∀ n ∈ nRows, n.id ≠ b) := by
      rcases h with h | h
      · left
        intro n hn
        obtain ⟨i, hi, fg, hfg, r, hr, rfl⟩ := (pqNodesRows_mem hnR n).mp hn
        exact h i hi fg hfg r hr
      · right
        intro n hn
        obtain ⟨i, hi, fg, hfg, r, hr, rfl⟩ := (pqNodesRows_mem hnR n).mp hn
        exact h i hi fg hfg r hr
    show Except.ok (findPathsCore eRows nRows a b) = Except.ok []
    rw [findPathsCore_nil_of_missing hmiss]

/-- C4 witness: node `"zz"` exists in the store of neither backend, so both
`findPaths` calls return empty (the parquet one successfully). -/
theorem c4_witness :
    dbFindPaths sampleDb [1] "zz" "b" = [] ∧
      pqFindPaths sampleFiles [1] "zz" "b" = .ok [] := by
  constructor
  · exact c4_missing_endpoint.1 sampleDb [1] "zz" "b" (Or.inl (by decide))
  · refine c4_missing_endpoint.2 sampleFiles [1] "zz" "b" (by simp) (by decide) (Or.inl ?_)
    intro i hi fg hfg r hr
    have hi1 : i = 1 := by simpa using hi
    subst hi1
    have hfg1 : fg = sampleGraph := by
      have : List.lookup 1 sampleFiles = some sampleGraph := rfl
      rw [this] at hfg
      injection hfg with h
      exact h.symm
    subst hfg1
    revert hr
    revert r
    decide

/-- C5: the 1-hop neighbor set of `n` (no edge-type filter) contains `n`
itself exactly when an authorized graph stores a self-loop edge
`from = to = n`; stated for both backends (parquet under the
successful-query hypothesis). -/
theorem c5_self_loop_iff :
    (∀ (st : DbStore) (g : List Nat) (n : String),
      n ∈ dbGetNeighbors st g n none ↔
        ∃ e ∈ st.edges, e.knowledgeGraphId ∈ g ∧ e.fromId = n ∧ e.toId = n) ∧
    (∀ (files : PqFiles) (g : List Nat) (n : String) (l : List String),
      pqGetNeighbors files g n none = .ok l →
      (n ∈ l ↔ ∃ i ∈ g, ∃ fg, files.lookup i = some fg ∧
        ∃ r ∈ fg.edges, r.fromId = n ∧ r.toId = n)) :=
  ⟨self_mem_dbGetNeighbors, fun _ _ _ _ hok => self_mem_pqGetNeighbors hok⟩

/-- C5 witness: node `s` has a self-loop in the sample store, so `s`
appears in its own 1-hop set (`["s"]`); the hypothesis of the parquet
half is discharged by evaluation. -/
theorem c5_witness :
    "s" ∈ (["s"] : List String) ↔ ∃ i ∈ [1], ∃ fg, List.lookup i sampleFiles = some fg ∧
      ∃ r ∈ fg.edges, r.fromId = "s" ∧ r.toId = "s" :=
  c5_self_loop_iff.2 sampleFiles [1] "s" ["s"] rfl

/-- C9: `findPaths` is symmetric — swapping source and destination yields
the same number of paths, and as a multiset the result is exactly the
original paths with their two legs exchanged and each leg flipped
(`swapKgPath`); stated for both backends. -/
theorem c9_findPaths_symmetry :
    (∀ (st : DbStore) (g : List Nat) (a b : String),
      (dbFindPaths st g b a).length = (dbFindPaths st g a b).length ∧
      (↑(dbFindPaths st g b a) : Multiset KgPath) =
        Multiset.map swapKgPath ↑(dbFindPaths st g a b)) ∧
    (∀ (files : PqFiles) (g : List Nat) (a b : String) (l₁ l₂ : List KgPath),
      pqFindPaths files g a b = .ok l₁ → pqFindPaths files g b a = .ok l₂ →
      l₂.length = l₁.length ∧
      (↑l₂ : Multiset KgPath) = Multiset.map swapKgPath ↑l₁) := by
  have hlen : ∀ (l₁ l₂ : List KgPath),
      (↑l₂ : Multiset KgPath) = Multiset.map swapKgPath ↑l₁ → l₂.length = l₁.length := by
    intro l₁ l₂ h
    have := congrArg Multiset.card h
    simpa using this
  constructor
  · intro st g a b
    have hswap := findPathsCore_swap
      (st.edges.filter (fun e => decide (e.knowledgeGraphId ∈ g)))
      (st.nodes.filter (fun n => decide (n.knowledgeGraphId ∈ g))) a b
    exact ⟨hlen _ _ hswap, hswap⟩
  · intro files g a b l₁ l₂ h₁ h₂
    unfold pqFindPaths at h₁ h₂
    cases heR : pqEdgesRows files g with
    | error e => rw [heR] at h₁; cases h₁
    | ok eRows =>
      rw [heR] at h₁ h₂
      cases hnR : pqNodesRows files g with
      | error e => rw [hnR] at h₁; cases h₁
      | ok nRows =>
        rw [hnR] at h₁ h₂
        injection h₁ with h₁
        injection h₂ with h₂
        subst h₁
        subst h₂
        have hswap := findPathsCore_swap eRows nRows a b
        exact ⟨hlen _ _ hswap, hswap⟩

/-- C9 witness: in the sample store the one path `a —t1→ b —t2→ c` comes
back from `findPaths(g, c, a)` with its legs exchanged and flipped; both
success hypotheses are discharged by evaluation. -/
theorem c9_witness :
    ([⟨[⟨⟨1, "c", some "Gamma", some "gene", some "gamma metformin alpha"⟩, "t2",
         ⟨1, "b", some "Beta", some "disease", some "treats metformin response"⟩⟩,
       ⟨⟨1, "b", some "Beta", some "disease", some "treats metformin response"⟩, "t1",
         ⟨1, "a", some "Alpha", some "gene", some "alpha details"⟩⟩]⟩] : List KgPath).length =
      ([⟨[⟨⟨1, "a", some "Alpha", some "gene", some "alpha details"⟩, "t1",
         ⟨1, "b", some "Beta", some "disease", some "treats metformin response"⟩⟩,
       ⟨⟨1, "b", some "Beta", some "disease", some "treats metformin response"⟩, "t2",
         ⟨1, "c", some "Gamma", some "gene", some "gamma metformin alpha"⟩⟩]⟩] : List KgPath).length ∧
    (↑([⟨[⟨⟨1, "c", some "Gamma", some "gene", some "gamma metformin alpha"⟩, "t2",
         ⟨1, "b", some "Beta", some "disease", some "treats metformin response"⟩⟩,
       ⟨⟨1, "b", some "Beta", some "disease", some "treats metformin response"⟩, "t1",
         ⟨1, "a", some "Alpha", some "gene", some "alpha details"⟩⟩]⟩] : List KgPath) :
        Multiset KgPath) =
      Multiset.map swapKgPath
        ↑([⟨[⟨⟨1, "a", some "Alpha", some "gene", some "alpha details"⟩, "t1",
           ⟨1, "b", some "Beta", some "disease", some "treats metformin response"⟩⟩,
         ⟨⟨1, "b", some "Beta", some "disease", some "treats metformin response"⟩, "t2",
           ⟨1, "c", some "Gamma", some "gene", some "gamma metformin alpha"⟩⟩]⟩] : List KgPath) :=
  c9_findPaths_symmetry.2 sampleFiles [1] "a" "c" _ _ rfl rfl

/-- C8: when a query is supplied, the ranked candidate list is the name
matches in fetch order (each with no `matchExplanation`) followed by the
property matches; the property matches are the positive-relevance scored
candidates, sorted by descending relevance with equal-relevance candidates
keeping their prior relative order (stability), each relevance being the
count of query tokens found in the properties of the candidate. -/
theorem c8_ranking (q : String) (cands : List Node) :
    rankCandidates q cands =
      (nameMatchList q cands).map (fun c => (c, (none : Option String))) ++
        (sortByRelDesc (scoredPropMatches (tokenizeQuery q) (nameMatchList q cands) cands)).map
          (fun sc => (sc.node, some (matchExplanationOf sc.relevance sc.appearing))) ∧
    List.Pairwise (fun u v => v.relevance ≤ u.relevance)
      (sortByRelDesc (scoredPropMatches (tokenizeQuery q) (nameMatchList q cands) cands)) ∧
    (∀ sc ∈ sortByRelDesc (scoredPropMatches (tokenizeQuery q) (nameMatchList q cands) cands),
      0 < sc.relevance ∧
        sc.relevance = ((tokenizeQuery q).filter (candPropHasWord sc.node)).length) ∧
    (∀ r : Nat,
      (sortByRelDesc (scoredPropMatches (tokenizeQuery q) (nameMatchList q cands) cands)).filter
          (fun sc => sc.relevance == r) =
        (scoredPropMatches (tokenizeQuery q) (nameMatchList q cands) cands).filter
          (fun sc => sc.relevance == r)) := by
  refine ⟨rfl, pairwise_sortByRelDesc _, ?_, fun r => filter_sortByRelDesc r _⟩
  intro sc hsc
  rw [mem_sortByRelDesc] at hsc
  exact (mem_scoredPropMatches hsc).2

/-- C8 witness: the ranking applied to the sample candidates for query
`"metformin alpha"` — in particular the sorted property matches are
descending and stable. -/
theorem c8_witness :
    List.Pairwise (fun u v => v.relevance ≤ u.relevance)
      (sortByRelDesc (scoredPropMatches (tokenizeQuery "metformin alpha")
        (nameMatchList "metformin alpha" sampleDb.nodes) sampleDb.nodes)) ∧
    (sortByRelDesc (scoredPropMatches (tokenizeQuery "metformin alpha")
        (nameMatchList "metformin alpha" sampleDb.nodes) sampleDb.nodes)).filter
        (fun sc => sc.relevance == 1) =
      (scoredPropMatches (tokenizeQuery "metformin alpha")
        (nameMatchList "metformin alpha" sampleDb.nodes) sampleDb.nodes).filter
        (fun sc => sc.relevance == 1) :=
  ⟨(c8_ranking "metformin alpha" sampleDb.nodes).2.1,
   (c8_ranking "metformin alpha" sampleDb.nodes).2.2.2 1⟩

/-- C10: every neighbor record returned by a 2-hop `searchInSurroundings`
call carries only the bare node fields — its `matchExplanation`,
`edgesToCandidate` and `edgesFromCandidate` members are all absent, even
when a query was supplied and the candidate ranked as a property match. -/
theorem c10_two_hop_bare_fields :
    ∀ (files : PqFiles) (g : List Nat) (nodeId : String)
      (query nodeType et : Option String) (resp : SurroundingsResponse),
      searchInSurroundings files g nodeId query nodeType et (some Hops.two) = .ok resp →
      ∀ nb ∈ resp.neighbors,
        nb.matchExplanation = none ∧ nb.edgesToCandidate = none ∧
          nb.edgesFromCandidate = none := by
  intro files g nodeId query nodeType et resp h
  unfold searchInSurroundings at h
  split at h
  · cases h
  · simp only [Option.getD] at h
    unfold searchCore at h
    split at h
    · cases h
    · cases h
    · rename_i mainNode rest hmain
      split at h
      · cases h
      · rename_i neighborIds hids
        split at h
        · cases h
        · rename_i fetched hfetched
          split at h <;>
          · injection h with h
            subst h
            intro nb hnb
            obtain ⟨cand, _, rfl⟩ := List.mem_map.mp hnb
            exact ⟨rfl, rfl, rfl⟩

/-- C10 witness: a 2-hop search around `a` with query `"metformin"`
succeeds and its first neighbor (a positive-relevance property match)
still carries no `matchExplanation` and no edge lists. -/
theorem c10_witness :
    (⟨some "disease", some "Beta", "b", 1, some "treats metformin response",
        none, none, none⟩ : NeighborOut).matchExplanation = none ∧
    (⟨some "disease", some "Beta", "b", 1, some "treats metformin response",
        none, none, none⟩ : NeighborOut).edgesToCandidate = none ∧
    (⟨some "disease", some "Beta", "b", 1, some "treats metformin response",
        none, none, none⟩ : NeighborOut).edgesFromCandidate = none :=
  c10_two_hop_bare_fields sampleFiles [1] "a" (some "metformin") none none
    ⟨⟨1, "a", some "Alpha", some "gene", some "alpha details"⟩,
     [⟨some "disease", some "Beta", "b", 1, some "treats metformin response", none, none, none⟩,
      ⟨some "gene", some "Gamma", "c", 1, some "gamma metformin alpha", none, none, none⟩]⟩
    rfl
    ⟨some "disease", some "Beta", "b", 1, some "treats metformin response", none, none, none⟩
    (by decide)

/-- The first component of every ranked candidate comes from the
candidate pool, whichever ranking branch ran. -/
theorem ranked_fst_mem {query : Option String} {cands : List Node} {pr : Node × Option String}
    (h : pr ∈ (if truthyOpt query then rankCandidates (query.getD "") cands
      else cands.map (fun c => (c, none)))) : pr.1 ∈ cands := by
  split at h
  · exact mem_rankCandidates_fst h
  · obtain ⟨c, hc, rfl⟩ := List.mem_map.mp h
    exact hc

/-- Neighbor records produced by the hops-1 edge-attachment stage keep
the graph id of their candidate. -/
theorem flattenAttach_kg {files : PqFiles} {g : List Nat} {nodeId : String}
    {ranked : List (Node × Option String)} {cands : List Node}
    {neighbors : List (List NeighborOut)}
    (hrank : ∀ pr ∈ ranked, pr.1 ∈ cands)
    (hkg : ∀ c ∈ cands, c.knowledgeGraphId ∈ g)
    (hcc : collectChunks (fun cand =>
        match attachEdges files g nodeId cand with
        | .error e => Except.error e
        | .ok nb => Except.ok [nb]) ranked = .ok neighbors) :
    ∀ nb ∈ neighbors.flatten, nb.knowledgeGraphId ∈ g := by
  intro nb hnb
  obtain ⟨cand, hcand, lnb, hlnb, hnbl⟩ := (collectChunks_ok_mem hcc nb).mp hnb
  cases hatt : attachEdges files g nodeId cand with
  | error e => rw [hatt] at hlnb; cases hlnb
  | ok nb' =>
    rw [hatt] at hlnb
    injection hlnb with hlnb
    subst hlnb
    rcases List.mem_singleton.mp hnbl with rfl
    rw [(attachEdges_ok_fields hatt).1]
    exact hkg _ (hrank _ hcand)

/-- Every node record mentioned in a `searchCore` response belongs to an
authorized graph. -/
theorem searchCore_kg {files : PqFiles} {g : List Nat} {nodeId : String}
    {query nodeType et : Option String} {hops : Hops} {resp : SurroundingsResponse}
    (h : searchCore files g nodeId query nodeType et hops = .ok resp) :
    resp.mainNode.knowledgeGraphId ∈ g ∧
      ∀ nb ∈ resp.neighbors, nb.knowledgeGraphId ∈ g := by
  unfold searchCore at h
  split at h
  · cases h
  · cases h
  · rename_i mainNode rest hmain
    have hmainkg : mainNode.knowledgeGraphId ∈ g :=
      pqGetNodesByIds_kg hmain mainNode (by simp)
    split at h
    · cases h
    · rename_i neighborIds hids
      split at h
      · cases h
      · rename_i fetched hfetched
        have hck : ∀ c ∈ applyNodeTypeFilter nodeType fetched, c.knowledgeGraphId ∈ g :=
          fun c hc => pqGetNodesByIds_kg hfetched _ (mem_applyNodeTypeFilter hc)
        split at h
        · split at h
          · dsimp only at h
            split at h
            · cases h
            · rename_i neighbors hcc
              injection h with h
              subst h
              exact ⟨hmainkg, flattenAttach_kg (fun pr hpr => mem_rankCandidates_fst hpr) hck hcc⟩
          · injection h with h
            subst h
            refine ⟨hmainkg, ?_⟩
            intro nb hnb
            obtain ⟨cand, hcand, rfl⟩ := List.mem_map.mp hnb
            exact hck _ (mem_rankCandidates_fst hcand)
        · split at h
          · dsimp only at h
            split at h
            · cases h
            · rename_i neighbors hcc
              injection h with h
              subst h
              refine ⟨hmainkg, flattenAttach_kg ?_ hck hcc⟩
              intro pr hpr
              obtain ⟨c, hc, rfl⟩ := List.mem_map.mp hpr
              exact hc
          · injection h with h
            subst h
            refine ⟨hmainkg, ?_⟩
            intro nb hnb
            obtain ⟨cand, hcand, rfl⟩ := List.mem_map.mp hnb
            obtain ⟨c, hc, rfl⟩ := List.mem_map.mp hcand
            exact hck _ hc

/-- Every edge row of a successful parquet edge-source read is tagged
with an authorized graph id. -/
theorem pqEdgesRows_kg {files : PqFiles} {g : List Nat} {rows : List Edge}
    (hok : pqEdgesRows files g = .ok rows) :
    ∀ e ∈ rows, e.knowledgeGraphId ∈ g := by
  intro e he
  obtain ⟨i, hi, fg, _, r, _, rfl⟩ := (pqEdgesRows_mem hok e).mp he
  exact hi

/-- Every node returned by the relational `getNodesByIds` carries an
authorized graph id. -/
theorem dbGetNodesByIds_kg (st : DbStore) (g : List Nat) (ids : List String) :
    ∀ nd ∈ dbGetNodesByIds st g ids, nd.knowledgeGraphId ∈ g := by
  intro nd hnd
  unfold dbGetNodesByIds at hnd
  split at hnd
  · simp at hnd
  · rw [List.mem_filter, decide_eq_true_eq] at hnd
    exact hnd.2.1

/-- Every node record mentioned in a relational `dbSearchCore` response
belongs to an authorized graph. -/
theorem dbSearchCore_kg {st : DbStore} {g : List Nat} {nodeId : String}
    {query nodeType et : Option String} {hops : Hops} {resp : SurroundingsResponse}
    (h : dbSearchCore st g nodeId query nodeType et hops = .ok resp) :
    resp.mainNode.knowledgeGraphId ∈ g ∧
      ∀ nb ∈ resp.neighbors, nb.knowledgeGraphId ∈ g := by
  unfold dbSearchCore at h
  split at h
  · cases h
  · rename_i mainNode rest hmain
    have hmainkg : mainNode.knowledgeGraphId ∈ g :=
      dbGetNodesByIds_kg st g [nodeId] mainNode (by rw [hmain]; simp)
    have hck : ∀ c ∈ applyNodeTypeFilter nodeType
        (dbGetNodesByIds st g (dbGetKHopNeighborIds st g nodeId hops et)),
        c.knowledgeGraphId ∈ g :=
      fun c hc => dbGetNodesByIds_kg st g _ c (mem_applyNodeTypeFilter hc)
    split at h
    · split at h <;>
      · injection h with h
        subst h
        refine ⟨hmainkg, ?_⟩
        intro nb hnb
        obtain ⟨cand, hcand, rfl⟩ := List.mem_map.mp hnb
        exact hck _ (mem_rankCandidates_fst hcand)
    · split at h <;>
      · injection h with h
        subst h
        refine ⟨hmainkg, ?_⟩
        intro nb hnb
        obtain ⟨cand, hcand, rfl⟩ := List.mem_map.mp hnb
        obtain ⟨c, hc, rfl⟩ := List.mem_map.mp hcand
        exact hck _ hc

/-- C2 counterexample: the relational `searchNodesByName` with an EMPTY
authorized graph-id list skips the graph filter entirely
(`knowledgeGraphIds.length > 0` guard) and returns a node of graph 1 —
a record whose graph id is not in the authorized set. -/
theorem c2_counterexample :
    dbSearchNodesByName sampleDb "alpha" (some []) 10 =
      [⟨1, "a", some "Alpha", some "gene", some "alpha details"⟩] ∧
    (⟨1, "a", some "Alpha", some "gene", some "alpha details"⟩ : Node).knowledgeGraphId ∉
      ([] : List Nat) :=
  ⟨by decide, by decide⟩

/-- C2 (amended): every record in a result belongs to an authorized graph
id for node fetch, edge fetch, path finding and surroundings search in
both backends, and for name search whenever the supplied authorized set is
non-empty — the one exception being the relational name search with an
empty set, which disables the graph filter (the counterexample). -/
theorem c2_amended :
    (∀ (st : DbStore) (g : List Nat) (ids : List String),
      ∀ nd ∈ dbGetNodesByIds st g ids, nd.knowledgeGraphId ∈ g) ∧
    (∀ (st : DbStore) (name : String) (l : List Nat) (limit : Nat), l ≠ [] →
      ∀ nd ∈ dbSearchNodesByName st name (some l) limit, nd.knowledgeGraphId ∈ l) ∧
    (∀ (st : DbStore) (g : List Nat) (a b : String),
      ∀ e ∈ dbGetEdgesBetweenNodes st g a b, e.knowledgeGraphId ∈ g) ∧
    (∀ (st : DbStore) (g : List Nat) (a b : String),
      ∀ p ∈ dbFindPaths st g a b, ∀ leg ∈ p.legs,
        leg.tailNode.knowledgeGraphId ∈ g ∧ leg.headNode.knowledgeGraphId ∈ g) ∧
    (∀ (files : PqFiles) (g : List Nat) (ids : List String) (rows : List Node),
      pqGetNodesByIds files g ids = .ok rows → ∀ nd ∈ rows, nd.knowledgeGraphId ∈ g) ∧
    (∀ (files : PqFiles) (name : String) (l : List Nat) (limit : Nat) (rows : List Node),
      pqSearchNodesByName files name (some l) limit = .ok rows →
      ∀ nd ∈ rows, nd.knowledgeGraphId ∈ l) ∧
    (∀ (files : PqFiles) (g : List Nat) (a b : String) (rows : List Edge),
      pqGetEdgesBetweenNodes files g a b = .ok rows →
      ∀ e ∈ rows, e.knowledgeGraphId ∈ g) ∧
    (∀ (files : PqFiles) (g : List Nat) (a b : String) (ps : List KgPath),
      pqFindPaths files g a b = .ok ps → ∀ p ∈ ps, ∀ leg ∈ p.legs,
        leg.tailNode.knowledgeGraphId ∈ g ∧ leg.headNode.knowledgeGraphId ∈ g) ∧
    (∀ (files : PqFiles) (g : List Nat) (nodeId : String)
      (query nodeType et : Option String) (k : Option Hops) (resp : SurroundingsResponse),
      searchInSurroundings files g nodeId query nodeType et k = .ok resp →
      resp.mainNode.knowledgeGraphId ∈ g ∧
        ∀ nb ∈ resp.neighbors, nb.knowledgeGraphId ∈ g) ∧
    (∀ (st : DbStore) (g : List Nat) (nodeId : String)
      (query nodeType et : Option String) (k : Option Hops) (resp : SurroundingsResponse),
      dbSearchInSurroundings st g nodeId query nodeType et k = .ok resp →
      resp.mainNode.knowledgeGraphId ∈ g ∧
        ∀ nb ∈ resp.neighbors, nb.knowledgeGraphId ∈ g) := by
  refine ⟨?_, ?_, ?_, ?_, ?_, ?_, ?_, ?_, ?_, ?_⟩
  · intro st g ids
    exact dbGetNodesByIds_kg st g ids
  · intro st name l limit hne nd hnd
    unfold dbSearchNodesByName at hnd
    have hnd2 := List.mem_of_mem_take hnd
    rw [List.mem_filter, Bool.and_eq_true] at hnd2
    have h2 := hnd2.2.2
    have hle : l.isEmpty = false := by
      cases l with
      | nil => exact absurd rfl hne
      | cons x xs => rfl
    simp only [hle, Bool.false_eq_true, if_false, ite_false, decide_eq_true_eq] at h2
    exact h2
  · intro st g a b e he
    unfold dbGetEdgesBetweenNodes at he
    rw [List.mem_filter, decide_eq_true_eq] at he
    exact he.2.1
  · intro st g a b p hp leg hleg
    have := findPathsCore_leg_nodes hp leg hleg
    constructor
    · have h := this.1
      rw [List.mem_filter, decide_eq_true_eq] at h
      exact h.2
    · have h := this.2
      rw [List.mem_filter, decide_eq_true_eq] at h
      exact h.2
  · intro files g ids rows hok
    exact pqGetNodesByIds_kg hok
  · intro files name l limit rows hok nd hnd
    unfold pqSearchNodesByName at hok
    by_cases hle : l.isEmpty
    · simp only [hle, if_pos] at hok
      cases hok
      simp at hnd
    · simp only [hle, Bool.false_eq_true, if_false, ite_false] at hok
      cases hrows : pqNodesRows files l with
      | error e => rw [hrows] at hok; cases hok
      | ok rows2 =>
        rw [hrows] at hok
        cases hok
        exact pqNodesRows_kg hrows nd (List.mem_of_mem_filter (List.mem_of_mem_take hnd))
  · intro files g a b rows hok e he
    unfold pqGetEdgesBetweenNodes at hok
    cases hrows : pqEdgesRows files g with
    | error err => rw [hrows] at hok; cases hok
    | ok rows2 =>
      rw [hrows] at hok
      cases hok
      exact pqEdgesRows_kg hrows e (List.mem_of_mem_filter he)
  · intro files g a b ps hok p hp leg hleg
    unfold pqFindPaths at hok
    cases heR : pqEdgesRows files g with
    | error e => rw [heR] at hok; cases hok
    | ok eRows =>
      rw [heR] at hok
      cases hnR : pqNodesRows files g with
      | error e => rw [hnR] at hok; cases hok
      | ok nRows =>
        rw [hnR] at hok
        injection hok with hok
        subst hok
        have := findPathsCore_leg_nodes hp leg hleg
        exact ⟨pqNodesRows_kg hnR _ this.1, pqNodesRows_kg hnR _ this.2⟩
  · intro files g nodeId query nodeType et k resp h
    unfold searchInSurroundings at h
    split at h
    · cases h
    · exact searchCore_kg h
  · intro st g nodeId query nodeType et k resp h
    unfold dbSearchInSurroundings at h
    split at h
    · cases h
    · exact dbSearchCore_kg h

/-- C2 witness: the 2-hop surroundings search around `a` over authorized
set `[1]`, in BOTH backends — the main node and every returned neighbor
carry graph id 1; each success hypothesis is discharged by evaluation. -/
theorem c2_witness :
    ((⟨⟨1, "a", some "Alpha", some "gene", some "alpha details"⟩,
      [⟨some "disease", some "Beta", "b", 1, some "treats metformin response",
          none, none, none⟩,
       ⟨some "gene", some "Gamma", "c", 1, some "gamma metformin alpha",
          none, none, none⟩]⟩ : SurroundingsResponse).mainNode.knowledgeGraphId ∈ [1] ∧
      ∀ nb ∈ (⟨⟨1, "a", some "Alpha", some "gene", some "alpha details"⟩,
        [⟨some "disease", some "Beta", "b", 1, some "treats metformin response",
            none, none, none⟩,
         ⟨some "gene", some "Gamma", "c", 1, some "gamma metformin alpha",
            none, none, none⟩]⟩ : SurroundingsResponse).neighbors,
        nb.knowledgeGraphId ∈ [1]) ∧
    ((⟨⟨1, "a", some "Alpha", some "gene", some "alpha details"⟩,
      [⟨some "disease", some "Beta", "b", 1, some "treats metformin response",
          none, none, none⟩,
       ⟨some "gene", some "Gamma", "c", 1, some "gamma metformin alpha",
          none, none, none⟩]⟩ : SurroundingsResponse).mainNode.knowledgeGraphId ∈ [1] ∧
      ∀ nb ∈ (⟨⟨1, "a", some "Alpha", some "gene", some "alpha details"⟩,
        [⟨some "disease", some "Beta", "b", 1, some "treats metformin response",
            none, none, none⟩,
         ⟨some "gene", some "Gamma", "c", 1, some "gamma metformin alpha",
            none, none, none⟩]⟩ : SurroundingsResponse).neighbors,
        nb.knowledgeGraphId ∈ [1]) := by
  obtain ⟨_, _, _, _, _, _, _, _, hpqtool, hdbtool⟩ := c2_amended
  exact ⟨hpqtool sampleFiles [1] "a" (some "metformin") none none (some Hops.two) _ rfl,
    hdbtool sampleDb [1] "a" (some "metformin") none none (some Hops.two) _ rfl⟩

/-- C6 counterexample: two successful calls whose graph-id set contains
the unrecognized id 999 — `getNodesByIds` with an empty requested-id list
and the k=2-with-edge-type expansion both short-circuit to an empty result
BEFORE the source (and its unknown-graph check) is ever built, so the
claim "every operation call with an unrecognized graph id fails with
UnknownGraph" is false. -/
theorem c6_counterexample :
    List.lookup 999 sampleFiles = none ∧
    pqGetNodesByIds sampleFiles [999] [] = Except.ok [] ∧
    pqGetKHopNeighborIds sampleFiles [999] "a" Hops.two (some "x") = Except.ok [] :=
  ⟨rfl, rfl, rfl⟩

/-- C6 (amended): in the parquet backend, every operation that actually
builds a store source fails with `Unknown graph id=<i>` for the first
unrecognized id `i` of the set; the only calls that succeed despite an
unrecognized id are the two that return before building a source
(`getNodesByIds` with no requested ids, and the k=2 expansion with an
edge-type filter, both returning empty — the counterexample). The
relational backend has no unknown-graph detection at all: an id tagging
no edge row is silently ignored by `getNeighbors`. -/
theorem c6_amended :
    (∀ (files : PqFiles) (g : List Nat) (i : Nat), firstUnknown files g = some i →
      (∀ n et, pqGetNeighbors files g n et = .error (.unknownGraph i)) ∧
      (∀ ids, ids ≠ [] → pqGetNodesByIds files g ids = .error (.unknownGraph i)) ∧
      (∀ a b, pqGetEdgesBetweenNodes files g a b = .error (.unknownGraph i)) ∧
      (∀ a b, pqFindPaths files g a b = .error (.unknownGraph i)) ∧
      (∀ name limit, pqSearchNodesByName files name (some g) limit =
        .error (.unknownGraph i)) ∧
      (∀ n et, pqGetKHopNeighborIds files g n Hops.one et = .error (.unknownGraph i)) ∧
      (∀ n, pqGetKHopNeighborIds files g n Hops.two none = .error (.unknownGraph i))) ∧
    (∀ (st : DbStore) (g : List Nat) (j : Nat) (n : String) (et : Option String),
      (∀ e ∈ st.edges, e.knowledgeGraphId ≠ j) →
      dbGetNeighbors st (j :: g) n et = dbGetNeighbors st g n et) := by
  constructor
  · intro files g i hfind
    have hedges := pqEdgesRows_error hfind
    have hnodes := pqNodesRows_error hfind
    have hgne : g ≠ [] := by
      intro hg
      subst hg
      simp [firstUnknown] at hfind
    have hnbr : ∀ n et, pqGetNeighbors files g n et = .error (.unknownGraph i) := by
      intro n et
      simp [pqGetNeighbors, hedges]
    refine ⟨hnbr, ?_, ?_, ?_, ?_, ?_, ?_⟩
    · intro ids hids
      have : ids.isEmpty = false := by
        cases ids with
        | nil => exact absurd rfl hids
        | cons x xs => rfl
      simp [pqGetNodesByIds, this, hnodes]
    · intro a b
      simp [pqGetEdgesBetweenNodes, hedges]
    · intro a b
      simp [pqFindPaths, hedges]
    · intro name limit
      have : g.isEmpty = false := by
        cases g with
        | nil => exact absurd rfl hgne
        | cons x xs => rfl
      simp [pqSearchNodesByName, this, hnodes]
    · intro n et
      simpa [pqGetKHopNeighborIds] using hnbr n et
    · intro n
      simp [pqGetKHopNeighborIds, truthyOpt, hnbr n none]
  · intro st g j n et h
    unfold dbGetNeighbors
    have hfe : st.edges.filter
        (fun e => decide (e.knowledgeGraphId ∈ j :: g ∧ edgeTouches n e ∧ edgeTypeOk et e)) =
        st.edges.filter
        (fun e => decide (e.knowledgeGraphId ∈ g ∧ edgeTouches n e ∧ edgeTypeOk et e)) := by
      apply List.filter_congr
      intro e he
      apply decide_eq_decide.mpr
      have := h e he
      simp only [List.mem_cons]
      constructor
      · rintro ⟨(hj | hg'), hrest⟩
        · exact absurd hj this
        · exact ⟨hg', hrest⟩
      · rintro ⟨hg', hrest⟩
        exact ⟨Or.inr hg', hrest⟩
    rw [hfe]

/-- C6 witness: with the unrecognized id 999 the parquet operations fail
with `Unknown graph id=999`, and in the relational store an id (7) that
tags no edge row changes nothing. -/
theorem c6_witness :
    pqGetNeighbors sampleFiles [999] "a" none = .error (.unknownGraph 999) ∧
    pqGetNodesByIds sampleFiles [999] ["a"] = .error (.unknownGraph 999) ∧
    pqFindPaths sampleFiles [999] "a" "c" = .error (.unknownGraph 999) ∧
    pqSearchNodesByName sampleFiles "alpha" (some [999]) 10 = .error (.unknownGraph 999) ∧
    dbGetNeighbors sampleDb [7, 1] "a" none = dbGetNeighbors sampleDb [1] "a" none := by
  obtain ⟨h1, h2, h3, h4, h5, h6, h7⟩ := c6_amended.1 sampleFiles [999] 999 rfl
  exact ⟨h1 "a" none, h2 ["a"] (by simp), h4 "a" "c", h5 "alpha" 10,
    c6_amended.2 sampleDb [1] 7 "a" none (by decide)⟩
